import Mathlib

/-!
Verification development for the organizational-hierarchy repair engine
(`backend/eda/clean_parse_data.py`).

The store is modelled as a list of employee rows (rows are returned by the
SQLite layer in stable rowid order, which the list order represents).  Columns
that the repair engine never reads or writes (names, job title, performance
rating, activity flag) are elided.  SQL equality filters use SQL semantics:
a comparison against NULL never matches.  The `job_level = str(target_level)`
comparisons in the source are numeric comparisons after SQLite's INTEGER
column affinity converts the bound text, so they are modelled as integer
equality.  Dates are exact calendar arithmetic over a proleptic Gregorian
calendar (the same arithmetic `datetime.date` implements), and tenure is exact
rational arithmetic; with day counts divided by 365.25 a rounding tie is
impossible (the scaled value has odd denominator), so nearest-rounding models
Python's `round`.
-/

namespace HrisRepair

/-! ## Calendar dates -/

/-- A calendar date, as produced by `datetime.strptime(..).date()`. -/
structure YMD where
  year : Nat
  month : Nat
  day : Nat
deriving DecidableEq

/-- Gregorian leap-year test, as in `datetime`. -/
def isLeap (y : Nat) : Bool := (y % 4 == 0 && y % 100 != 0) || y % 400 == 0

/-- Number of days in a month, as validated by the `datetime` constructor. -/
def daysInMonth (y m : Nat) : Nat :=
  if m = 2 then (if isLeap y then 29 else 28)
  else if m = 4 ∨ m = 6 ∨ m = 9 ∨ m = 11 then 30
  else 31

/-- The `datetime.date` constructor's validity check (MINYEAR = 1,
MAXYEAR = 9999). -/
def validYMD (d : YMD) : Prop :=
  1 ≤ d.year ∧ d.year ≤ 9999 ∧ 1 ≤ d.month ∧ d.month ≤ 12 ∧
    1 ≤ d.day ∧ d.day ≤ daysInMonth d.year d.month

instance : DecidablePred validYMD := fun d => by unfold validYMD; infer_instance

/-- Day number of a date (days-from-civil, epoch 0000-03-01); differences of
this quantity are exactly `(b - a).days` of `datetime.date`. -/
def toOrdinal (d : YMD) : Nat :=
  let y := if d.month ≤ 2 then d.year - 1 else d.year
  let mp := if d.month ≤ 2 then d.month + 9 else d.month - 3
  let doy := (153 * mp + 2) / 5 + (d.day - 1)
  365 * y + y / 4 - y / 100 + y / 400 + doy

/-- `(b - a).days` for two dates. -/
def daysBetween (a b : YMD) : Int := (toOrdinal b : Int) - (toOrdinal a : Int)

/-- Python's `round(q, 2)` on the exact value: rounding ties cannot arise for
any value of the form `days / 365.25`, so nearest-rounding is exact. -/
def round2 (q : ℚ) : ℚ := (round (q * 100) : ℤ) / 100

/-! ## strptime-style parsing

Each `strptime` format is a regular expression over the input; `%Y` matches
exactly four digits, `%m` matches `1[0-2]|0[1-9]|[1-9]` and `%d` matches
`3[01]|[12]\d|0[1-9]|[1-9]`, each always followed by a non-digit separator or
the end of the input, which makes the alternation deterministic.  `strptime`
fails if any characters remain unconsumed, and the `date` constructor then
validates the calendar date. -/

/-- Value of an ASCII digit character. -/
def digitVal (c : Char) : Option Nat :=
  match c with
  | '9' => some 9 | '8' => some 8 | '7' => some 7 | '6' => some 6 | '5' => some 5
  | '4' => some 4 | '3' => some 3 | '2' => some 2 | '1' => some 1 | '0' => some 0
  | _ => none

/-- The ASCII digit character for a value below ten. -/
def digitChar (n : Nat) : Char :=
  match n with
  | 0 => '0' | 1 => '1' | 2 => '2' | 3 => '3' | 4 => '4'
  | 5 => '5' | 6 => '6' | 7 => '7' | 8 => '8' | _ => '9'

/-- `%Y`: exactly four digits. -/
def parseYear : List Char → Option (Nat × List Char)
  | c1 :: c2 :: c3 :: c4 :: rest =>
    match digitVal c1, digitVal c2, digitVal c3, digitVal c4 with
    | some a, some b, some c, some d => some (1000 * a + 100 * b + 10 * c + d, rest)
    | _, _, _, _ => none
  | _ => none

/-- `%m` / `%d`: one or two digits, two-digit values bounded by `maxv`,
single digits nonzero (the next token is always a non-digit separator or the
end of the input, so the alternation commits deterministically). -/
def parseNum2or1 (maxv : Nat) : List Char → Option (Nat × List Char)
  | c1 :: c2 :: rest =>
    (match digitVal c1, digitVal c2 with
     | some a, some b =>
       if 1 ≤ 10 * a + b ∧ 10 * a + b ≤ maxv then some (10 * a + b, rest) else none
     | some a, none => if 1 ≤ a then some (a, c2 :: rest) else none
     | none, _ => none)
  | [c1] =>
    (match digitVal c1 with
     | some a => if 1 ≤ a then some (a, []) else none
     | none => none)
  | [] => none

/-- A literal separator character. -/
def parseSep (sep : Char) : List Char → Option (List Char)
  | c :: rest => if c = sep then some rest else none
  | [] => none

/-- End-of-input check plus the `date` constructor's validation. -/
def finishYMD (y m d : Nat) (rest : List Char) : Option YMD :=
  if rest = [] ∧ validYMD ⟨y, m, d⟩ then some ⟨y, m, d⟩ else none

/-- `strptime(s, '%Y-%m-%d')`. -/
def strptime_iso (cs : List Char) : Option YMD :=
  match parseYear cs with
  | some (y, r1) =>
    (match parseSep '-' r1 with
     | some r2 =>
       (match parseNum2or1 12 r2 with
        | some (m, r3) =>
          (match parseSep '-' r3 with
           | some r4 =>
             (match parseNum2or1 31 r4 with
              | some (d, r5) => finishYMD y m d r5
              | none => none)
           | none => none)
        | none => none)
     | none => none)
  | none => none

/-- `strptime(s, '%m/%d/%Y')`. -/
def strptime_us (cs : List Char) : Option YMD :=
  match parseNum2or1 12 cs with
  | some (m, r1) =>
    (match parseSep '/' r1 with
     | some r2 =>
       (match parseNum2or1 31 r2 with
        | some (d, r3) =>
          (match parseSep '/' r3 with
           | some r4 =>
             (match parseYear r4 with
              | some (y, r5) => finishYMD y m d r5
              | none => none)
           | none => none)
        | none => none)
     | none => none)
  | none => none

/-- `strptime(s, '%d-%m-%Y')`. -/
def strptime_eu (cs : List Char) : Option YMD :=
  match parseNum2or1 31 cs with
  | some (d, r1) =>
    (match parseSep '-' r1 with
     | some r2 =>
       (match parseNum2or1 12 r2 with
        | some (m, r3) =>
          (match parseSep '-' r3 with
           | some r4 =>
             (match parseYear r4 with
              | some (y, r5) => finishYMD y m d r5
              | none => none)
           | none => none)
        | none => none)
     | none => none)
  | none => none

/-- `strptime(s, '%Y/%m/%d')`. -/
def strptime_isoslash (cs : List Char) : Option YMD :=
  match parseYear cs with
  | some (y, r1) =>
    (match parseSep '/' r1 with
     | some r2 =>
       (match parseNum2or1 12 r2 with
        | some (m, r3) =>
          (match parseSep '/' r3 with
           | some r4 =>
             (match parseNum2or1 31 r4 with
              | some (d, r5) => finishYMD y m d r5
              | none => none)
           | none => none)
        | none => none)
     | none => none)
  | none => none

/-- The four input formats of `parse_date`, tried in the source's order. -/
def tryFormats (cs : List Char) : Option YMD :=
  match strptime_iso cs with
  | some d => some d
  | none =>
    (match strptime_us cs with
     | some d => some d
     | none =>
       (match strptime_eu cs with
        | some d => some d
        | none => strptime_isoslash cs))

/-- Two zero-padded digits, as `strftime('%m')` / `strftime('%d')` render. -/
def twoDigits (n : Nat) : List Char := [digitChar (n / 10), digitChar (n % 10)]

/-- Four zero-padded digits, as `strftime('%Y')` renders a year. -/
def fourDigits (n : Nat) : List Char :=
  [digitChar (n / 1000), digitChar (n / 100 % 10), digitChar (n / 10 % 10), digitChar (n % 10)]

/-- Characters of `strftime('%Y-%m-%d')`. -/
def renderChars (d : YMD) : List Char :=
  fourDigits d.year ++ '-' :: twoDigits d.month ++ '-' :: twoDigits d.day

/-- `strftime('%Y-%m-%d')`. -/
def renderISO (d : YMD) : String := ⟨renderChars d⟩

/-- Python `str.strip()`. -/
def pyStrip (cs : List Char) : List Char :=
  ((cs.dropWhile Char.isWhitespace).reverse.dropWhile Char.isWhitespace).reverse

/-- Membership of `s.upper()` in `{'NA', 'N/A', 'NULL', 'NONE'}`. -/
def isNullToken (cs : List Char) : Bool :=
  let u := cs.map Char.toUpper
  u == "NA".toList || u == "N/A".toList || u == "NULL".toList || u == "NONE".toList

/-- `parse_date` of `update_employees_tenure`: strip, map null-ish tokens to
`None`, try the four formats in order rendering the first success canonically,
then fall back to the first ten characters when at least ten remain and they
parse as ISO; otherwise `None`. -/
def parse_date (value : Option String) : Option String :=
  match value with
  | none => none
  | some v =>
    let cs := pyStrip v.toList
    if cs = [] then none
    else if isNullToken cs then none
    else
      match tryFormats cs with
      | some d => some (renderISO d)
      | none =>
        if 10 ≤ cs.length then
          match strptime_iso (cs.take 10) with
          | some _ => some ⟨cs.take 10⟩
          | none => none
        else none

/-- `compute_tenure` of `update_employees_tenure`: `strptime` the joining date
(raising — `none` — when it is `None` or unparseable), take the exit date when
truthy else today, and round the day difference over 365.25 to two decimals. -/
def compute_tenure (joining : Option String) (exit_ : Option String) (today : YMD) : Option ℚ :=
  match joining with
  | none => none
  | some j =>
    match strptime_iso j.toList with
    | none => none
    | some start =>
      let endOpt : Option YMD :=
        match exit_ with
        | some x => if x.toList = [] then some today else strptime_iso x.toList
        | none => some today
      match endOpt with
      | none => none
      | some stop => some (round2 ((daysBetween start stop : ℚ) / 365.25))

/-! ## The employee store -/

/-- One row of the `employees` table (columns the repair engine never touches
are elided).  `employee_id` is the INTEGER PRIMARY KEY. -/
structure Employee where
  employee_id : Int
  department : Option String
  job_level : Option Int
  location : Option String
  region : Option String
  manager_id : Option Int
  supervisor_id : Option Int
  joining_date : Option String
  exit_date : Option String
  tenure_years : Option ℚ
deriving DecidableEq

/-- The `employees` table, in rowid order. -/
abbrev Store := List Employee

/-- SQL equality of a column value against a bound parameter: NULL on either
side never matches. -/
def optEq {α : Type _} [DecidableEq α] : Option α → Option α → Bool
  | some a, some b => a == b
  | _, _ => false

/-- `_candidate_ids_for_level`: three progressively relaxed equality filters,
first non-empty result wins, flattened to the id column. -/
def _candidate_ids_for_level (s : Store) (department : Option String)
    (target_level : Int) (region location : Option String) : List Int :=
  if (s.filter fun e =>
      optEq e.department department && optEq e.job_level (some target_level) &&
        optEq e.region region && optEq e.location location) ≠ [] then
    (s.filter fun e =>
      optEq e.department department && optEq e.job_level (some target_level) &&
        optEq e.region region && optEq e.location location).map (·.employee_id)
  else if (s.filter fun e =>
      optEq e.department department && optEq e.job_level (some target_level) &&
        optEq e.region region) ≠ [] then
    (s.filter fun e =>
      optEq e.department department && optEq e.job_level (some target_level) &&
        optEq e.region region).map (·.employee_id)
  else if (s.filter fun e =>
      optEq e.department department && optEq e.job_level (some target_level)) ≠ [] then
    (s.filter fun e =>
      optEq e.department department && optEq e.job_level (some target_level)).map
      (·.employee_id)
  else []

/-- `SELECT COUNT(*) FROM employees WHERE <col> = ?`. -/
def countSubordinates (s : Store) (col : Employee → Option Int) (cid : Int) : Nat :=
  (s.filter fun e => optEq (col e) (some cid)).length

/-- The loop of `_choose_least_loaded`: `none` stands for the initial
`best_count = inf`, and only a strictly smaller count replaces the best. -/
def chooseAux (s : Store) (col : Employee → Option Int) :
    Option (Int × Nat) → List Int → Option (Int × Nat)
  | best, [] => best
  | best, cid :: rest =>
    let cnt := countSubordinates s col cid
    match best with
    | none => chooseAux s col (some (cid, cnt)) rest
    | some (b, bc) =>
      if cnt < bc then chooseAux s col (some (cid, cnt)) rest
      else chooseAux s col (some (b, bc)) rest

/-- `_choose_least_loaded`. -/
def _choose_least_loaded (s : Store) (candidate_ids : List Int)
    (col : Employee → Option Int) : Option Int :=
  (chooseAux s col none candidate_ids).map Prod.fst

/-- `_find_leader`. -/
def _find_leader (s : Store) (department : Option String) (job_level : Int)
    (region location : Option String) (level_offset : Int)
    (col : Employee → Option Int) : Option Int :=
  let target_level := job_level + level_offset
  _choose_least_loaded s (_candidate_ids_for_level s department target_level region location) col

/-- `_is_valid_leader_id`. -/
def _is_valid_leader_id (s : Store) (department : Option String) (job_level : Int)
    (region location : Option String) (leader_id : Option Int)
    (level_offset : Int) : Bool :=
  match leader_id with
  | none => false
  | some lid =>
    let target_level := job_level + level_offset
    decide (lid ∈ _candidate_ids_for_level s department target_level region location)

/-- `UPDATE employees SET ... WHERE employee_id = i`. -/
def setField (f : Employee → Employee) (i : Int) (s : Store) : Store :=
  s.map fun e => if e.employee_id = i then f e else e

/-- `UPDATE employees SET manager_id = NULL WHERE employee_id = i`. -/
def clearManager (i : Int) (s : Store) : Store :=
  setField (fun e => { e with manager_id := none }) i s

/-- `UPDATE employees SET supervisor_id = NULL WHERE employee_id = i`. -/
def clearSupervisor (i : Int) (s : Store) : Store :=
  setField (fun e => { e with supervisor_id := none }) i s

/-- `UPDATE employees SET manager_id = m WHERE employee_id = i`. -/
def setManager (m : Int) (i : Int) (s : Store) : Store :=
  setField (fun e => { e with manager_id := some m }) i s

/-- `UPDATE employees SET supervisor_id = m WHERE employee_id = i`. -/
def setSupervisor (m : Int) (i : Int) (s : Store) : Store :=
  setField (fun e => { e with supervisor_id := some m }) i s

/-- A left fold that aborts on the first raised exception. -/
def optFoldl {σ α : Type _} (f : σ → α → Option σ) : σ → List α → Option σ
  | st, [] => some st
  | st, a :: as =>
    match f st a with
    | some st1 => optFoldl f st1 as
    | none => none

/-- A list traversal that aborts on the first raised exception. -/
def optMapM {α β : Type _} (f : α → Option β) : List α → Option (List β)
  | [] => some []
  | a :: as =>
    match f a, optMapM f as with
    | some b, some bs => some (b :: bs)
    | _, _ => none

/-- The manager half of the validation loop body: a non-NULL manager link is
kept when `_is_valid_leader_id` accepts it at offset 1 against the live store,
else cleared. -/
def validateMgr (st : Store) (row : Employee) (jl : Int) : Store :=
  match row.manager_id with
  | none => st
  | some m =>
    if _is_valid_leader_id st row.department jl row.region row.location (some m) 1 then st
    else clearManager row.employee_id st

/-- The supervisor half of the validation loop body: offset 2. -/
def validateSup (st : Store) (row : Employee) (jl : Int) : Store :=
  match row.supervisor_id with
  | none => st
  | some m2 =>
    if _is_valid_leader_id st row.department jl row.region row.location (some m2) 2 then st
    else clearSupervisor row.employee_id st

/-- The body of the validation loop for one snapshot row: `int(job_level)`
raises on NULL; then the manager check runs against the live store and the
supervisor check against its result. -/
def validateStep (st : Store) (row : Employee) : Option Store :=
  match row.job_level with
  | none => none
  | some jl => some (validateSup (validateMgr st row jl) row jl)

/-- `validate_manager_id_supervisor_id`: snapshot every row holding a link,
then run the validation loop over the snapshot against the live store. -/
def validate_manager_id_supervisor_id (s : Store) : Option Store :=
  optFoldl validateStep s (s.filter fun e => e.manager_id.isSome || e.supervisor_id.isSome)

/-- One prepared tuple `(employee_id, joining_norm, exit_norm, tenure)` of
`update_employees_tenure`, keyed for `executemany`. -/
abbrev TenureUpdate := Int × Option String × Option String × ℚ

/-- One `UPDATE` of the tenure `executemany`. -/
def applyTenureUpdate (st : Store) (u : TenureUpdate) : Store :=
  setField (fun e =>
    { e with joining_date := u.2.1, exit_date := u.2.2.1, tenure_years := some u.2.2.2 })
    u.1 st

/-- The loop body of `update_employees_tenure` for one row: normalize both
dates and compute tenure (which raises — `none` — when the joining date did
not normalize). -/
def tenureUpdateFor (today : YMD) (e : Employee) : Option TenureUpdate :=
  let jn := parse_date e.joining_date
  let en := parse_date e.exit_date
  match compute_tenure jn en today with
  | some t => some (e.employee_id, jn, en, t)
  | none => none

/-- `update_employees_tenure`: prepare an update for every row (the whole pass
raises if any tenure computation raises), then apply them all. -/
def update_employees_tenure (today : YMD) (s : Store) : Option Store :=
  match optMapM (tenureUpdateFor today) s with
  | some updates => some (updates.foldl applyTenureUpdate s)
  | none => none

/-- The body of the manager-fill loop for one snapshot row: NULL level counts
as 0, level 5 is skipped, otherwise assign the least-loaded candidate at level
`+1` when one exists. -/
def managerStep (st : Store) (row : Employee) : Store :=
  if row.job_level.getD 0 = 5 then st
  else
    match _find_leader st row.department (row.job_level.getD 0) row.region row.location 1
        (fun e => e.manager_id) with
    | some m => setManager m row.employee_id st
    | none => st

/-- `update_employees_manager_id`: snapshot the rows with NULL `manager_id`,
then run the fill loop against the live store. -/
def update_employees_manager_id (s : Store) : Store :=
  (s.filter fun e => e.manager_id = none).foldl managerStep s

/-- The body of the supervisor-fill loop for one snapshot row: NULL level
counts as 0, level 4 is skipped, otherwise assign the least-loaded candidate
at level `+2` when one exists. -/
def supervisorStep (st : Store) (row : Employee) : Store :=
  if row.job_level.getD 0 = 4 then st
  else
    match _find_leader st row.department (row.job_level.getD 0) row.region row.location 2
        (fun e => e.supervisor_id) with
    | some m => setSupervisor m row.employee_id st
    | none => st

/-- `update_employees_supervisor_id`. -/
def update_employees_supervisor_id (s : Store) : Store :=
  (s.filter fun e => e.supervisor_id = none).foldl supervisorStep s

/-- `main`: the four passes in order (the store-existence check precedes any
pass and is outside the data model). -/
def main (today : YMD) (s : Store) : Option Store :=
  match validate_manager_id_supervisor_id s with
  | none => none
  | some s1 =>
    match update_employees_tenure today s1 with
    | none => none
    | some s2 => some (update_employees_supervisor_id (update_employees_manager_id s2))

/-! ## The specification's reading of `parse_date` (claim C7) -/

/-- Normalization as claim C7 words it: try the four formats on the raw
string, and on failure return its first ten characters exactly when they parse
as ISO. -/
def claimParse (v : String) : Option String :=
  match tryFormats v.toList with
  | some d => some (renderISO d)
  | none =>
    match strptime_iso (v.toList.take 10) with
    | some _ => some ⟨v.toList.take 10⟩
    | none => none

/-- Normalization as claim C7 must be amended: the raw string is first
stripped of surrounding whitespace and mapped to null when empty or a
null-ish token; the four formats and the ten-character ISO fallback then
apply to the stripped string. -/
def claimParseAmended (v : String) : Option String :=
  let cs := pyStrip v.toList
  if cs = [] then none
  else if isNullToken cs then none
  else
    match tryFormats cs with
    | some d => some (renderISO d)
    | none =>
      match strptime_iso (cs.take 10) with
      | some _ => some ⟨cs.take 10⟩
      | none => none

/-! ## Basic lookup machinery -/

/-- Lookup of the row with a given primary key (first match in rowid order). -/
def getById (s : Store) (i : Int) : Option Employee :=
  s.find? fun e => e.employee_id == i

/-- The columns the candidate queries read (and the primary key). -/
def attrProj (e : Employee) :
    Int × Option String × Option Int × Option String × Option String :=
  (e.employee_id, e.department, e.job_level, e.region, e.location)

theorem optEq_true_iff {α : Type _} [DecidableEq α] (a b : Option α) :
    optEq a b = true ↔ ∃ x, a = some x ∧ b = some x := by
  cases a with
  | none => simp [optEq]
  | some x =>
    cases b with
    | none => simp [optEq]
    | some y =>
      simp only [optEq, beq_iff_eq, Option.some.injEq]
      constructor
      · rintro rfl
        exact ⟨x, rfl, rfl⟩
      · rintro ⟨z, rfl, rfl⟩
        rfl

theorem getById_eq_some_id {s : Store} {i : Int} {e : Employee}
    (h : getById s i = some e) : e.employee_id = i := by
  have := List.find?_some h
  simpa using this

theorem getById_mem {s : Store} {i : Int} {e : Employee}
    (h : getById s i = some e) : e ∈ s :=
  List.mem_of_find?_eq_some h

theorem getById_of_mem {s : Store} {e : Employee}
    (hnd : (s.map (·.employee_id)).Nodup) (he : e ∈ s) :
    getById s e.employee_id = some e := by
  induction s with
  | nil => cases he
  | cons a s ih =>
    rcases List.mem_cons.1 he with rfl | he
    · simp [getById]
    · have hne : a.employee_id ≠ e.employee_id := by
        intro hid
        have : e.employee_id ∈ s.map (·.employee_id) := List.mem_map_of_mem _ he
        rw [List.map_cons, List.nodup_cons] at hnd
        exact hnd.1 (hid ▸ this)
      have := ih (by rw [List.map_cons, List.nodup_cons] at hnd; exact hnd.2) he
      simp only [getById, List.find?_cons]
      rw [show (a.employee_id == e.employee_id) = false by simpa using hne]
      exact this

theorem getById_isSome_of_mem_ids {s : Store} {i : Int}
    (h : i ∈ s.map (·.employee_id)) : ∃ e, getById s i = some e := by
  induction s with
  | nil => simp at h
  | cons a s ih =>
    simp only [List.map_cons, List.mem_cons] at h
    by_cases hai : a.employee_id = i
    · exact ⟨a, by simp [getById, List.find?_cons, hai]⟩
    · rcases h with h | h
      · exact absurd h.symm hai
      · rcases ih h with ⟨e, he⟩
        refine ⟨e, ?_⟩
        simp only [getById, List.find?_cons] at he ⊢
        rwa [show (a.employee_id == i) = false by simpa using hai]

/-- Two stores with the same readable columns have the same lookups up to
those columns. -/
theorem getById_congr {s t : Store} (h : s.map attrProj = t.map attrProj) (i : Int) :
    (getById s i).map attrProj = (getById t i).map attrProj := by
  induction s generalizing t with
  | nil => cases t <;> simp_all [getById]
  | cons a s ih =>
    cases t with
    | nil => simp at h
    | cons b t =>
      simp only [List.map_cons, List.cons.injEq] at h
      have hid : a.employee_id = b.employee_id := congrArg Prod.fst h.1
      simp only [getById, List.find?_cons, hid]
      by_cases hbi : b.employee_id = i
      · simp only [show (b.employee_id == i) = true by simpa using hbi]
        simpa using h.1
      · simp only [show (b.employee_id == i) = false by simpa using hbi]
        exact ih h.2

theorem map_ids_of_map_attrProj {s t : Store} (h : s.map attrProj = t.map attrProj) :
    s.map (·.employee_id) = t.map (·.employee_id) := by
  have h1 := congrArg (List.map Prod.fst) h
  simpa [Function.comp] using h1

/-- A record with given readable columns transfers along equality of readable
columns. -/
theorem attr_witness {s t : Store} (h : s.map attrProj = t.map attrProj)
    {e : Employee} (he : e ∈ s) : ∃ w ∈ t, attrProj w = attrProj e := by
  induction s generalizing t with
  | nil => cases he
  | cons a s ih =>
    cases t with
    | nil => simp at h
    | cons b t =>
      simp only [List.map_cons, List.cons.injEq] at h
      rcases List.mem_cons.1 he with rfl | he
      · exact ⟨b, List.mem_cons_self _ _, h.1.symm⟩
      · rcases ih h.2 he with ⟨w, hw, hwa⟩
        exact ⟨w, List.mem_cons_of_mem _ hw, hwa⟩

/-! ## Candidate-query lemmas -/

theorem filter_map_congr {s t : Store} (h : s.map attrProj = t.map attrProj)
    (p : Int × Option String × Option Int × Option String × Option String → Bool) :
    (s.filter fun e => p (attrProj e)).map (·.employee_id) =
      (t.filter fun e => p (attrProj e)).map (·.employee_id) := by
  induction s generalizing t with
  | nil => cases t <;> simp_all
  | cons a s ih =>
    cases t with
    | nil => simp at h
    | cons b t =>
      simp only [List.map_cons, List.cons.injEq] at h
      have hid : a.employee_id = b.employee_id := congrArg Prod.fst h.1
      simp only [List.filter_cons, h.1]
      by_cases hp : p (attrProj b) = true
      · simp only [hp, if_true, List.map_cons, hid, ih h.2]
      · simp only [Bool.not_eq_true] at hp
        simp only [hp, Bool.false_eq_true, if_false, ih h.2]

/-- The candidate query reads only the readable columns. -/
theorem candidate_ids_congr {s t : Store} (h : s.map attrProj = t.map attrProj)
    (d : Option String) (tl : Int) (r l : Option String) :
    _candidate_ids_for_level s d tl r l = _candidate_ids_for_level t d tl r l := by
  unfold _candidate_ids_for_level
  have h1 := filter_map_congr h
    (fun a => optEq a.2.1 d && optEq a.2.2.1 (some tl) && optEq a.2.2.2.1 r &&
      optEq a.2.2.2.2 l)
  have h2 := filter_map_congr h
    (fun a => optEq a.2.1 d && optEq a.2.2.1 (some tl) && optEq a.2.2.2.1 r)
  have h3 := filter_map_congr h (fun a => optEq a.2.1 d && optEq a.2.2.1 (some tl))
  simp only [attrProj] at h1 h2 h3
  have e1 : ∀ (u : Store), (u.filter fun e =>
      optEq e.department d && optEq e.job_level (some tl) && optEq e.region r &&
        optEq e.location l) = [] ↔
      ((u.filter fun e => optEq e.department d && optEq e.job_level (some tl) &&
        optEq e.region r && optEq e.location l).map (·.employee_id)) = [] := by
    intro u; simp
  have e2 : ∀ (u : Store), (u.filter fun e =>
      optEq e.department d && optEq e.job_level (some tl) && optEq e.region r) = [] ↔
      ((u.filter fun e => optEq e.department d && optEq e.job_level (some tl) &&
        optEq e.region r).map (·.employee_id)) = [] := by
    intro u; simp
  have e3 : ∀ (u : Store), (u.filter fun e =>
      optEq e.department d && optEq e.job_level (some tl)) = [] ↔
      ((u.filter fun e => optEq e.department d && optEq e.job_level (some tl)).map
        (·.employee_id)) = [] := by
    intro u; simp
  by_cases c1 : (s.filter fun e => optEq e.department d && optEq e.job_level (some tl) &&
      optEq e.region r && optEq e.location l) = []
  · have c1' : (t.filter fun e => optEq e.department d && optEq e.job_level (some tl) &&
        optEq e.region r && optEq e.location l) = [] := by
      rw [e1]; rw [e1] at c1; rw [← h1]; exact c1
    simp only [c1, c1', ne_eq, not_true_eq_false, if_false]
    by_cases c2 : (s.filter fun e => optEq e.department d && optEq e.job_level (some tl) &&
        optEq e.region r) = []
    · have c2' : (t.filter fun e => optEq e.department d && optEq e.job_level (some tl) &&
          optEq e.region r) = [] := by
        rw [e2]; rw [e2] at c2; rw [← h2]; exact c2
      simp only [c2, c2', ne_eq, not_true_eq_false, if_false]
      by_cases c3 : (s.filter fun e => optEq e.department d &&
          optEq e.job_level (some tl)) = []
      · have c3' : (t.filter fun e => optEq e.department d &&
            optEq e.job_level (some tl)) = [] := by
          rw [e3]; rw [e3] at c3; rw [← h3]; exact c3
        simp [c3, c3']
      · have c3' : ¬ (t.filter fun e => optEq e.department d &&
            optEq e.job_level (some tl)) = [] := by
          rw [e3]; rw [e3] at c3; rw [← h3]; exact c3
        simp only [ne_eq, c3, not_false_eq_true, if_true, c3', h3]
    · have c2' : ¬ (t.filter fun e => optEq e.department d && optEq e.job_level (some tl) &&
          optEq e.region r) = [] := by
        rw [e2]; rw [e2] at c2; rw [← h2]; exact c2
      simp only [ne_eq, c2, not_false_eq_true, if_true, c2', h2]
  · have c1' : ¬ (t.filter fun e => optEq e.department d && optEq e.job_level (some tl) &&
        optEq e.region r && optEq e.location l) = [] := by
      rw [e1]; rw [e1] at c1; rw [← h1]; exact c1
    simp only [ne_eq, c1, not_false_eq_true, if_true, c1', h1]

/-- Every candidate is a stored employee at exactly the target level, in the
requested (non-NULL) department. -/
theorem mem_candidate_ids {s : Store} {d : Option String} {tl : Int}
    {r l : Option String} {m : Int} (h : m ∈ _candidate_ids_for_level s d tl r l) :
    ∃ e ∈ s, e.employee_id = m ∧ e.job_level = some tl ∧ e.department = d ∧ d.isSome := by
  unfold _candidate_ids_for_level at h
  have extract : ∀ (p : Employee → Bool), m ∈ (s.filter p).map (·.employee_id) →
      (∀ e, p e = true → (optEq e.department d && optEq e.job_level (some tl)) = true) →
      ∃ e ∈ s, e.employee_id = m ∧ e.job_level = some tl ∧ e.department = d ∧ d.isSome := by
    intro p hm hp
    rcases List.mem_map.1 hm with ⟨e, hef, rfl⟩
    have hes : e ∈ s := List.mem_of_mem_filter hef
    have hpe : p e = true := List.of_mem_filter hef
    have := hp e hpe
    rw [Bool.and_eq_true] at this
    rcases (optEq_true_iff _ _).1 this.1 with ⟨x, hx1, hx2⟩
    rcases (optEq_true_iff _ _).1 this.2 with ⟨y, hy1, hy2⟩
    have hy : y = tl := (Option.some.inj hy2).symm
    exact ⟨e, hes, rfl, hy ▸ hy1, hx2 ▸ hx1, by rw [hx2]; rfl⟩
  have p1 : ∀ e : Employee,
      (optEq e.department d && optEq e.job_level (some tl) && optEq e.region r &&
        optEq e.location l) = true →
      (optEq e.department d && optEq e.job_level (some tl)) = true := by
    intro e he
    simp only [Bool.and_eq_true] at he ⊢
    exact ⟨he.1.1.1, he.1.1.2⟩
  have p2 : ∀ e : Employee,
      (optEq e.department d && optEq e.job_level (some tl) && optEq e.region r) = true →
      (optEq e.department d && optEq e.job_level (some tl)) = true := by
    intro e he
    simp only [Bool.and_eq_true] at he ⊢
    exact ⟨he.1.1, he.1.2⟩
  split at h
  · exact extract _ h p1
  · split at h
    · exact extract _ h p2
    · split at h
      · exact extract _ h fun _ he => he
      · simp at h

/-- When no stored employee sits at the target level, every tier is empty. -/
theorem candidate_ids_nil {s : Store} {d : Option String} {tl : Int}
    {r l : Option String} (h : ∀ e ∈ s, optEq e.job_level (some tl) = false) :
    _candidate_ids_for_level s d tl r l = [] := by
  unfold _candidate_ids_for_level
  have hf : ∀ (p : Employee → Bool), (∀ e, p e = true → optEq e.job_level (some tl) = true) →
      s.filter p = [] := by
    intro p hp
    rw [List.filter_eq_nil_iff]
    intro e he hpe
    have := hp e hpe
    rw [h e he] at this
    cases this
  rw [hf _ (fun e he => by simp only [Bool.and_eq_true] at he; exact he.1.1.2),
      hf _ (fun e he => by simp only [Bool.and_eq_true] at he; exact he.1.2),
      hf _ (fun e he => by simp only [Bool.and_eq_true] at he; exact he.2)]
  simp

/-! ## Least-loaded selection -/

theorem chooseAux_some_spec (s : Store) (col : Employee → Option Int) :
    ∀ (cands : List Int) (b : Int),
    ∃ r, chooseAux s col (some (b, countSubordinates s col b)) cands =
        some (r, countSubordinates s col r) ∧
      countSubordinates s col r ≤ countSubordinates s col b ∧
      (∀ c ∈ cands, countSubordinates s col r ≤ countSubordinates s col c) ∧
      (r = b ∨ ∃ pre post, cands = pre ++ r :: post ∧
        countSubordinates s col r < countSubordinates s col b ∧
        ∀ c ∈ pre, countSubordinates s col r < countSubordinates s col c) := by
  intro cands
  induction cands with
  | nil =>
    intro b
    exact ⟨b, rfl, le_refl _, by simp, Or.inl rfl⟩
  | cons c rest ih =>
    intro b
    by_cases hlt : countSubordinates s col c < countSubordinates s col b
    · rcases ih c with ⟨r, hr, hrc, hall, hd⟩
      refine ⟨r, ?_, le_of_lt (lt_of_le_of_lt hrc hlt), ?_, ?_⟩
      · simpa [chooseAux, hlt] using hr
      · intro x hx
        rcases List.mem_cons.1 hx with rfl | hx
        · exact hrc
        · exact hall x hx
      · right
        rcases hd with rfl | ⟨pre, post, heq, hlt2, hpre⟩
        · exact ⟨[], rest, rfl, lt_of_le_of_lt hrc hlt, by simp⟩
        · refine ⟨c :: pre, post, by rw [heq]; rfl, lt_trans hlt2 hlt, ?_⟩
          intro x hx
          rcases List.mem_cons.1 hx with rfl | hx
          · exact hlt2
          · exact hpre x hx
    · rcases ih b with ⟨r, hr, hrc, hall, hd⟩
      have hbc : countSubordinates s col b ≤ countSubordinates s col c := le_of_not_lt hlt
      refine ⟨r, ?_, hrc, ?_, ?_⟩
      · simpa [chooseAux, hlt] using hr
      · intro x hx
        rcases List.mem_cons.1 hx with rfl | hx
        · exact le_trans hrc hbc
        · exact hall x hx
      · rcases hd with rfl | ⟨pre, post, heq, hlt2, hpre⟩
        · exact Or.inl rfl
        · refine Or.inr ⟨c :: pre, post, by rw [heq]; rfl, hlt2, ?_⟩
          intro x hx
          rcases List.mem_cons.1 hx with rfl | hx
          · exact lt_of_lt_of_le hlt2 hbc
          · exact hpre x hx

theorem choose_none_iff (s : Store) (col : Employee → Option Int) (cands : List Int) :
    _choose_least_loaded s cands col = none ↔ cands = [] := by
  cases cands with
  | nil => simp [_choose_least_loaded, chooseAux]
  | cons c rest =>
    simp only [_choose_least_loaded]
    rcases chooseAux_some_spec s col rest c with ⟨r, hr, -, -, -⟩
    rw [show chooseAux s col none (c :: rest) =
      chooseAux s col (some (c, countSubordinates s col c)) rest from rfl, hr]
    simp

theorem choose_mem {s : Store} {col : Employee → Option Int} {cands : List Int} {m : Int}
    (h : _choose_least_loaded s cands col = some m) : m ∈ cands := by
  cases cands with
  | nil => simp [_choose_least_loaded, chooseAux] at h
  | cons c rest =>
    simp only [_choose_least_loaded] at h
    rcases chooseAux_some_spec s col rest c with ⟨r, hr, -, -, hd⟩
    rw [show chooseAux s col none (c :: rest) =
      chooseAux s col (some (c, countSubordinates s col c)) rest from rfl, hr] at h
    simp only [Option.map_some'] at h
    have hrm : r = m := by injection h
    subst hrm
    rcases hd with rfl | ⟨pre, post, heq, -, -⟩
    · exact List.mem_cons_self _ _
    · rw [heq]
      exact List.mem_cons_of_mem _ (List.mem_append_right _ (List.mem_cons_self _ _))

theorem find_leader_mem {s : Store} {d : Option String} {jl : Int}
    {r l : Option String} {off : Int} {col : Employee → Option Int} {m : Int}
    (h : _find_leader s d jl r l off col = some m) :
    m ∈ _candidate_ids_for_level s d (jl + off) r l :=
  choose_mem h

theorem find_leader_none_iff (s : Store) (d : Option String) (jl : Int)
    (r l : Option String) (off : Int) (col : Employee → Option Int) :
    _find_leader s d jl r l off col = none ↔
      _candidate_ids_for_level s d (jl + off) r l = [] :=
  choose_none_iff s col _

/-! ## Claim C4 -/

/-- C4: over a non-empty candidate sequence, `_choose_least_loaded` returns a
candidate whose subordinate count (rows whose target column equals that
candidate) is minimal over the sequence, and among minimal candidates the
first-encountered one; the empty sequence yields no selection. -/
theorem least_loaded_spec (s : Store) (col : Employee → Option Int) (cands : List Int) :
    _choose_least_loaded s [] col = none ∧
    (cands ≠ [] → ∃ r pre post, _choose_least_loaded s cands col = some r ∧
      cands = pre ++ r :: post ∧
      (∀ c ∈ cands, countSubordinates s col r ≤ countSubordinates s col c) ∧
      (∀ c ∈ pre, countSubordinates s col r < countSubordinates s col c)) := by
  refine ⟨rfl, ?_⟩
  intro hne
  cases cands with
  | nil => exact absurd rfl hne
  | cons c rest =>
    rcases chooseAux_some_spec s col rest c with ⟨r, hr, hrc, hall, hd⟩
    have hres : _choose_least_loaded s (c :: rest) col = some r := by
      simp only [_choose_least_loaded]
      rw [show chooseAux s col none (c :: rest) =
        chooseAux s col (some (c, countSubordinates s col c)) rest from rfl, hr]
      rfl
    rcases hd with rfl | ⟨pre, post, heq, hlt2, hpre⟩
    · refine ⟨r, [], rest, hres, rfl, ?_, by simp⟩
      intro x hx
      rcases List.mem_cons.1 hx with rfl | hx
      · exact le_refl _
      · exact hall x hx
    · refine ⟨r, c :: pre, post, hres, by rw [heq]; rfl, ?_, ?_⟩
      · intro x hx
        rcases List.mem_cons.1 hx with rfl | hx
        · exact hrc
        · exact hall x hx
      · intro x hx
        rcases List.mem_cons.1 hx with rfl | hx
        · exact hlt2
        · exact hpre x hx

/-- C4 witness store: two candidates with loads 1 and 0. -/
def c4Store : Store :=
  [⟨1, some "Eng", some 2, none, none, some 10, none, none, none, none⟩,
   ⟨10, some "Eng", some 3, none, none, none, none, none, none, none⟩,
   ⟨11, some "Eng", some 3, none, none, none, none, none, none, none⟩]

/-- C4 witness: on the concrete store, candidate 11 (zero subordinates) beats
candidate 10 (one subordinate). -/
theorem least_loaded_spec_witness :
    ∃ r pre post, _choose_least_loaded c4Store [10, 11] (fun e => e.manager_id) = some r ∧
      ([10, 11] : List Int) = pre ++ r :: post ∧
      (∀ c ∈ ([10, 11] : List Int),
        countSubordinates c4Store (fun e => e.manager_id) r ≤
          countSubordinates c4Store (fun e => e.manager_id) c) ∧
      (∀ c ∈ pre, countSubordinates c4Store (fun e => e.manager_id) r <
          countSubordinates c4Store (fun e => e.manager_id) c) :=
  (least_loaded_spec c4Store (fun e => e.manager_id) [10, 11]).2 (by decide)

/-! ## Claim C3 -/

/-- The most specific filter tier: department, level, region and location. -/
def tier1Ids (s : Store) (d : Option String) (tl : Int) (r l : Option String) : List Int :=
  (s.filter fun e => optEq e.department d && optEq e.job_level (some tl) &&
    optEq e.region r && optEq e.location l).map (·.employee_id)

/-- The middle filter tier: department, level and region. -/
def tier2Ids (s : Store) (d : Option String) (tl : Int) (r : Option String) : List Int :=
  (s.filter fun e => optEq e.department d && optEq e.job_level (some tl) &&
    optEq e.region r).map (·.employee_id)

/-- The least specific filter tier: department and level. -/
def tier3Ids (s : Store) (d : Option String) (tl : Int) : List Int :=
  (s.filter fun e => optEq e.department d && optEq e.job_level (some tl)).map
    (·.employee_id)

/-- C3: the candidate finder returns the first non-empty of the three tiers in
fixed most-to-least-specific order with no merging (empty when all tiers are
empty, since the last tier is then itself empty), and every returned id
belongs to a stored employee at exactly the target level in the given
department. -/
theorem candidate_finder_spec (s : Store) (d : Option String) (tl : Int)
    (r l : Option String) :
    _candidate_ids_for_level s d tl r l =
      (if tier1Ids s d tl r l ≠ [] then tier1Ids s d tl r l
       else if tier2Ids s d tl r ≠ [] then tier2Ids s d tl r
       else tier3Ids s d tl) ∧
    ∀ m ∈ _candidate_ids_for_level s d tl r l,
      ∃ e ∈ s, e.employee_id = m ∧ e.job_level = some tl ∧ e.department = d ∧ d.isSome := by
  constructor
  · unfold _candidate_ids_for_level tier1Ids tier2Ids tier3Ids
    by_cases c1 : (s.filter fun e => optEq e.department d && optEq e.job_level (some tl) &&
        optEq e.region r && optEq e.location l) = []
    · by_cases c2 : (s.filter fun e => optEq e.department d &&
          optEq e.job_level (some tl) && optEq e.region r) = []
      · by_cases c3 : (s.filter fun e => optEq e.department d &&
            optEq e.job_level (some tl)) = []
        · simp [c1, c2, c3]
        · simp [c1, c2, c3]
      · simp [c1, c2]
    · simp [c1]
  · exact fun m hm => mem_candidate_ids hm

/-- C3 witness store: one level-3 Engineering employee in another region, so
only the least specific tier matches. -/
def c3Store : Store :=
  [⟨7, some "Eng", some 3, some "SF", some "NA", none, none, none, none, none⟩]

/-- C3 witness: instantiating the membership half at a concrete store and
candidate. -/
theorem candidate_finder_spec_witness :
    ∃ e ∈ c3Store, e.employee_id = 7 ∧ e.job_level = some 3 ∧
      e.department = some "Eng" ∧ (some "Eng" : Option String).isSome :=
  (candidate_finder_spec c3Store (some "Eng") 3 (some "APAC") none).2 7 (by decide)

/-! ## Claim C10 -/

/-- C10: a record with NULL `job_level` is not skipped by either fill pass:
its level is taken as 0, so the manager fill looks up candidates at target
level 1 and the supervisor fill at target level 2, assigning the least-loaded
candidate exactly as for any other record. -/
theorem null_level_fill_spec (st : Store) (row : Employee) (h : row.job_level = none) :
    managerStep st row =
      (match _choose_least_loaded st
          (_candidate_ids_for_level st row.department 1 row.region row.location)
          (fun e => e.manager_id) with
       | some m => setManager m row.employee_id st
       | none => st) ∧
    supervisorStep st row =
      (match _choose_least_loaded st
          (_candidate_ids_for_level st row.department 2 row.region row.location)
          (fun e => e.supervisor_id) with
       | some m => setSupervisor m row.employee_id st
       | none => st) := by
  constructor
  · simp only [managerStep, h]
    rfl
  · simp only [supervisorStep, h]
    rfl

/-- C10 witness store: a NULL-level record and a level-1 colleague. -/
def c10Store : Store :=
  [⟨1, some "Eng", none, none, none, none, none, none, none, none⟩,
   ⟨2, some "Eng", some 1, none, none, none, none, none, none, none⟩]

/-- C10 witness: on the concrete store the NULL-level record is assigned the
level-1 employee as manager rather than being skipped. -/
theorem null_level_fill_spec_witness :
    managerStep c10Store ⟨1, some "Eng", none, none, none, none, none, none, none, none⟩ =
      (match _choose_least_loaded c10Store
          (_candidate_ids_for_level c10Store (some "Eng") 1 none none)
          (fun e => e.manager_id) with
       | some m => setManager m 1 c10Store
       | none => c10Store) :=
  (null_level_fill_spec c10Store
    ⟨1, some "Eng", none, none, none, none, none, none, none, none⟩ rfl).1

/-! ## Claim C8 -/

theorem optMapM_none_of_mem {α β : Type _} {f : α → Option β} {l : List α} {a : α}
    (ha : a ∈ l) (h : f a = none) : optMapM f l = none := by
  induction l with
  | nil => cases ha
  | cons b l ih =>
    rcases List.mem_cons.1 ha with rfl | ha
    · simp [optMapM, h]
    · rw [optMapM, ih ha]
      cases f b <;> rfl

/-- C8: when a record's `joining_date` fails to normalize, the tenure formula
receives no start date, the per-record computation raises, and the whole
tenure pass aborts without writing anything (no store is produced). -/
theorem tenure_unparseable_raises (today : YMD) (s : Store) (e : Employee)
    (he : e ∈ s) (h : parse_date e.joining_date = none) :
    compute_tenure (parse_date e.joining_date) (parse_date e.exit_date) today = none ∧
      update_employees_tenure today s = none := by
  have hc : compute_tenure (parse_date e.joining_date) (parse_date e.exit_date) today
      = none := by rw [h]; rfl
  refine ⟨hc, ?_⟩
  have hu : tenureUpdateFor today e = none := by
    unfold tenureUpdateFor
    simp only [hc]
  unfold update_employees_tenure
  rw [optMapM_none_of_mem he hu]

/-- C8 witness store: one record with unparseable joining-date text. -/
def c8Store : Store :=
  [⟨1, some "Eng", some 1, none, none, none, none, some "not a date", none, none⟩]

/-- C8 witness: the concrete malformed record aborts the pass. -/
theorem tenure_unparseable_raises_witness :
    compute_tenure (parse_date (some "not a date")) (parse_date none) ⟨2024, 1, 1⟩ = none ∧
      update_employees_tenure ⟨2024, 1, 1⟩ c8Store = none :=
  tenure_unparseable_raises ⟨2024, 1, 1⟩ c8Store
    ⟨1, some "Eng", some 1, none, none, none, none, some "not a date", none, none⟩
    (by decide) (by decide)

/-! ## Claim C7 -/

theorem tryFormats_none_iso {cs : List Char} (h : tryFormats cs = none) :
    strptime_iso cs = none := by
  unfold tryFormats at h
  cases hiso : strptime_iso cs
  · rfl
  · rw [hiso] at h
    exact absurd h (by simp)

/-- C7 counterexample: on the raw string `" 2020-01-01"` (leading space) the
code normalizes to `"2020-01-01"` after stripping, while the claim as written
— four formats on the raw string, then the raw first ten characters — yields
null, since no format accepts the leading space and the first ten raw
characters `" 2020-01-0"` do not parse as ISO. -/
theorem parse_date_claim_cex :
    parse_date (some " 2020-01-01") = some "2020-01-01" ∧
      claimParse " 2020-01-01" = none ∧
      parse_date (some " 2020-01-01") ≠ claimParse " 2020-01-01" := by
  refine ⟨by decide, by decide, by decide⟩

/-- C7 amended: `parse_date` first strips surrounding whitespace and maps the
empty string and the null-ish tokens to null; the four formats, and the
first-ten-characters ISO fallback, are then applied to the stripped string
(the source's additional ten-character length guard is redundant: a stripped
string shorter than ten characters whose prefix parses as ISO would already
have been accepted by the first format). -/
theorem parse_date_spec (v : String) : parse_date (some v) = claimParseAmended v := by
  unfold parse_date claimParseAmended
  by_cases h1 : pyStrip v.data = []
  · simp [h1]
  · by_cases h2 : isNullToken (pyStrip v.data)
    · simp [h1, h2]
    · cases h3 : tryFormats (pyStrip v.data) with
      | some d => simp [h1, h2, h3]
      | none =>
        by_cases h4 : 10 ≤ (pyStrip v.data).length
        · simp [h1, h2, h3, h4]
        · have hlen : (pyStrip v.data).length ≤ 10 := le_of_lt (Nat.lt_of_not_le h4)
          have htake : (pyStrip v.data).take 10 = pyStrip v.data :=
            List.take_of_length_le hlen
          simp [h1, h2, h3, h4, htake, tryFormats_none_iso h3]

/-! ## Tenure-pass characterization -/

/-- The record contents after the tenure pass rewrites one row. -/
def normRecord (today : YMD) (e : Employee) : Employee :=
  { e with joining_date := parse_date e.joining_date,
           exit_date := parse_date e.exit_date,
           tenure_years :=
             compute_tenure (parse_date e.joining_date) (parse_date e.exit_date) today }

/-- One tenure `UPDATE` as a per-record function. -/
def applyOne (u : TenureUpdate) (e : Employee) : Employee :=
  if e.employee_id = u.1 then
    { e with joining_date := u.2.1, exit_date := u.2.2.1, tenure_years := some u.2.2.2 }
  else e

/-- The whole `executemany`, per record. -/
def applySeq (us : List TenureUpdate) (e : Employee) : Employee :=
  us.foldl (fun e u => applyOne u e) e

theorem applyOne_employee_id (u : TenureUpdate) (e : Employee) :
    (applyOne u e).employee_id = e.employee_id := by
  unfold applyOne
  split <;> rfl

theorem foldl_applyTenureUpdate_eq_map (us : List TenureUpdate) :
    ∀ st : Store, us.foldl applyTenureUpdate st = st.map (applySeq us) := by
  induction us with
  | nil =>
    intro st
    simp only [List.foldl_nil]
    exact (List.map_id' st).symm
  | cons u us ih =>
    intro st
    rw [List.foldl_cons,
      show applyTenureUpdate st u = st.map (applyOne u) from rfl, ih, List.map_map]
    rfl

theorem applySeq_nomatch {us : List TenureUpdate} {e : Employee}
    (h : ∀ u ∈ us, u.1 ≠ e.employee_id) : applySeq us e = e := by
  induction us with
  | nil => rfl
  | cons u us ih =>
    have h0 : applyOne u e = e := by
      unfold applyOne
      rw [if_neg]
      exact fun hc => h u (List.mem_cons_self _ _) (hc ▸ rfl)
    show applySeq us (applyOne u e) = e
    rw [h0]
    exact ih fun u hu => h u (List.mem_cons_of_mem _ hu)

theorem tenureUpdateFor_some {today : YMD} {a : Employee} {b : TenureUpdate}
    (h : tenureUpdateFor today a = some b) :
    b.1 = a.employee_id ∧ b.2.1 = parse_date a.joining_date ∧
      b.2.2.1 = parse_date a.exit_date ∧
      compute_tenure (parse_date a.joining_date) (parse_date a.exit_date) today =
        some b.2.2.2 := by
  unfold tenureUpdateFor at h
  cases hc : compute_tenure (parse_date a.joining_date) (parse_date a.exit_date) today with
  | none => simp [hc] at h
  | some t =>
    simp only [hc] at h
    have hb : (a.employee_id, parse_date a.joining_date, parse_date a.exit_date, t) = b :=
      Option.some.inj h
    subst hb
    exact ⟨rfl, rfl, rfl, rfl⟩

theorem optMapM_isSome_of_mem {α β : Type _} {f : α → Option β} {l : List α}
    {bs : List β} (h : optMapM f l = some bs) {a : α} (ha : a ∈ l) :
    (f a).isSome := by
  induction l generalizing bs with
  | nil => cases ha
  | cons x l ih =>
    unfold optMapM at h
    cases hx : f x with
    | none => rw [hx] at h; cases h
    | some b =>
      rw [hx] at h
      cases hl : optMapM f l with
      | none => rw [hl] at h; cases h
      | some cs =>
        rcases List.mem_cons.1 ha with rfl | ha
        · rw [hx]; rfl
        · exact ih hl ha

theorem optMapM_tenure_ids (today : YMD) :
    ∀ (s : Store) (us : List TenureUpdate),
      optMapM (tenureUpdateFor today) s = some us →
      us.map (·.1) = s.map (·.employee_id) := by
  intro s
  induction s with
  | nil =>
    intro us h
    cases us with
    | nil => rfl
    | cons u us => cases h
  | cons a s ih =>
    intro us h
    unfold optMapM at h
    cases ha : tenureUpdateFor today a with
    | none => rw [ha] at h; cases h
    | some b =>
      rw [ha] at h
      cases hs : optMapM (tenureUpdateFor today) s with
      | none => rw [hs] at h; cases h
      | some bs =>
        rw [hs] at h
        have hus : b :: bs = us := Option.some.inj h
        subst hus
        rw [List.map_cons, List.map_cons, (tenureUpdateFor_some ha).1, ih bs hs]

theorem applySeq_eq_norm (today : YMD) :
    ∀ (s : Store) (us : List TenureUpdate),
      optMapM (tenureUpdateFor today) s = some us →
      (s.map (·.employee_id)).Nodup →
      ∀ e ∈ s, applySeq us e = normRecord today e := by
  intro s
  induction s with
  | nil => intro us _ _ e he; cases he
  | cons a s ih =>
    intro us h hnd e he
    unfold optMapM at h
    cases ha : tenureUpdateFor today a with
    | none => rw [ha] at h; cases h
    | some b =>
      rw [ha] at h
      cases hs : optMapM (tenureUpdateFor today) s with
      | none => rw [hs] at h; cases h
      | some bs =>
        rw [hs] at h
        have hus : b :: bs = us := Option.some.inj h
        subst hus
        rw [List.map_cons, List.nodup_cons] at hnd
        rcases tenureUpdateFor_some ha with ⟨hb1, hb2, hb3, hb4⟩
        rcases List.mem_cons.1 he with rfl | he
        · show applySeq bs (applyOne b e) = normRecord today e
          have h0 : applyOne b e = normRecord today e := by
            unfold applyOne normRecord
            rw [if_pos hb1.symm, hb2, hb3, hb4]
          rw [h0]
          refine applySeq_nomatch ?_
          intro u hu
          have : u.1 ∈ s.map (·.employee_id) := by
            rw [← optMapM_tenure_ids today s bs hs]
            exact List.mem_map_of_mem _ hu
          show u.1 ≠ (normRecord today e).employee_id
          intro hc
          rw [show (normRecord today e).employee_id = e.employee_id from rfl] at hc
          exact hnd.1 (hc ▸ this)
        · show applySeq bs (applyOne b e) = normRecord today e
          have h0 : applyOne b e = e := by
            unfold applyOne
            rw [if_neg]
            rw [hb1]
            intro hc
            exact hnd.1 (hc ▸ List.mem_map_of_mem _ he)
          rw [h0]
          exact ih bs hs hnd.2 e he

/-- Full characterization of the tenure pass: on success the store is mapped
record-wise through date normalization and the tenure formula. -/
theorem tenure_eq {today : YMD} {s s' : Store}
    (hnd : (s.map (·.employee_id)).Nodup)
    (h : update_employees_tenure today s = some s') :
    s' = s.map (normRecord today) ∧
      ∀ e ∈ s,
        (compute_tenure (parse_date e.joining_date) (parse_date e.exit_date) today).isSome := by
  unfold update_employees_tenure at h
  cases hm : optMapM (tenureUpdateFor today) s with
  | none => rw [hm] at h; cases h
  | some us =>
    rw [hm] at h
    have hs' : us.foldl applyTenureUpdate s = s' := Option.some.inj h
    constructor
    · rw [← hs', foldl_applyTenureUpdate_eq_map]
      exact List.map_congr_left (applySeq_eq_norm today s us hm hnd)
    · intro e he
      have := optMapM_isSome_of_mem hm he
      unfold tenureUpdateFor at this
      cases hc : compute_tenure (parse_date e.joining_date) (parse_date e.exit_date) today with
      | none => simp [hc] at this
      | some t => rfl

/-! ## Claim C6 -/

/-- Evaluation rule for two-decimal rounding when the scaled value is a whole
number. -/
theorem round2_eval (q : ℚ) (n : ℤ) (h : q * 100 = (n : ℚ)) :
    round2 q = (n : ℚ) / 100 := by
  rw [round2, h, round_intCast]

/-- The spec's tenure example, evaluated: 1461 days over 365.25 rounds to
exactly 4. -/
theorem compute_tenure_2020_2024 :
    compute_tenure (some "2020-01-01") none ⟨2024, 1, 1⟩ = some 4 := by
  show some (round2 ((daysBetween ⟨2020, 1, 1⟩ ⟨2024, 1, 1⟩ : ℚ) / 365.25)) = some 4
  have h2 : daysBetween ⟨2020, 1, 1⟩ ⟨2024, 1, 1⟩ = (1461 : ℤ) := by decide
  rw [h2, round2_eval _ 400 (by norm_num)]
  norm_num

/-- C6: for every record whose dates normalize, the tenure pass writes
`tenure_years = round((end - start).days / 365.25, 2)` with `start` the
normalized joining date and `end` the normalized exit date when present, else
today (that formula is `compute_tenure`); in particular joining 2020-01-01
with null exit and today frozen to 2024-01-01 spans 1461 days and yields
exactly 4. -/
theorem tenure_pass_spec (today : YMD) (s s' : Store)
    (hnd : (s.map (·.employee_id)).Nodup)
    (h : update_employees_tenure today s = some s') :
    (∀ e ∈ s, ∀ q,
      compute_tenure (parse_date e.joining_date) (parse_date e.exit_date) today = some q →
      ∃ e' ∈ s', e'.employee_id = e.employee_id ∧ e'.tenure_years = some q) ∧
    daysBetween ⟨2020, 1, 1⟩ ⟨2024, 1, 1⟩ = 1461 ∧
    round2 ((1461 : ℚ) / 365.25) = 4 ∧
    compute_tenure (some "2020-01-01") none ⟨2024, 1, 1⟩ = some 4 := by
  refine ⟨?_, by decide, ?_, compute_tenure_2020_2024⟩
  · intro e he q hq
    rcases tenure_eq hnd h with ⟨hmap, -⟩
    refine ⟨normRecord today e, ?_, rfl, ?_⟩
    · rw [hmap]
      exact List.mem_map_of_mem _ he
    · show compute_tenure (parse_date e.joining_date) (parse_date e.exit_date) today = some q
      exact hq
  · rw [round2_eval _ 400 (by norm_num)]
    norm_num

/-- C6 witness store: one record joining 2020-01-01, no exit date. -/
def c6Store : Store :=
  [⟨1, some "Eng", some 1, none, none, none, none, some "2020-01-01", none, none⟩]

/-- C6 witness result store: the tenure pass writes exactly 4 years. -/
def c6Store' : Store :=
  [⟨1, some "Eng", some 1, none, none, none, none, some "2020-01-01", none, some 4⟩]

/-- The tenure pass evaluated on the witness store. -/
theorem c6_update_eval :
    update_employees_tenure ⟨2024, 1, 1⟩ c6Store = some c6Store' := by
  have hpd : parse_date (some "2020-01-01") = some "2020-01-01" := by decide
  have hf : tenureUpdateFor ⟨2024, 1, 1⟩
      (⟨1, some "Eng", some 1, none, none, none, none, some "2020-01-01", none,
        none⟩ : Employee) =
      some ((1 : Int), some "2020-01-01", none, (4 : ℚ)) := by
    show (match compute_tenure (parse_date (some "2020-01-01")) (parse_date none)
            ⟨2024, 1, 1⟩ with
          | some t => some (((1 : Int), parse_date (some "2020-01-01"),
              parse_date none, t) : TenureUpdate)
          | none => none) = some ((1 : Int), some "2020-01-01", none, (4 : ℚ))
    rw [hpd, show parse_date none = none from rfl, compute_tenure_2020_2024]
  have hmm : optMapM (tenureUpdateFor ⟨2024, 1, 1⟩) c6Store =
      some [((1 : Int), some "2020-01-01", none, (4 : ℚ))] := by
    show (match tenureUpdateFor ⟨2024, 1, 1⟩
            (⟨1, some "Eng", some 1, none, none, none, none, some "2020-01-01", none,
              none⟩ : Employee),
          optMapM (tenureUpdateFor ⟨2024, 1, 1⟩) [] with
          | some b, some bs => some (b :: bs)
          | _, _ => none) = some [((1 : Int), some "2020-01-01", none, (4 : ℚ))]
    rw [hf]
    rfl
  show (match optMapM (tenureUpdateFor ⟨2024, 1, 1⟩) c6Store with
        | some updates => some (updates.foldl applyTenureUpdate c6Store)
        | none => none) = some c6Store'
  rw [hmm]
  rfl

/-- C6 witness: the concrete record receives tenure 4.0. -/
theorem tenure_pass_spec_witness :
    ∃ e' ∈ c6Store', e'.employee_id =
      (⟨1, some "Eng", some 1, none, none, none, none, some "2020-01-01", none,
        none⟩ : Employee).employee_id ∧ e'.tenure_years = some 4 :=
  (tenure_pass_spec ⟨2024, 1, 1⟩ c6Store c6Store' (by decide) c6_update_eval).1
    ⟨1, some "Eng", some 1, none, none, none, none, some "2020-01-01", none, none⟩
    (by decide) 4
    (by rw [show parse_date (some "2020-01-01") = some "2020-01-01" from by decide,
          show parse_date none = none from rfl]
        exact compute_tenure_2020_2024)

/-! ## Row-update lemmas -/

theorem map_attrProj_setField {f : Employee → Employee}
    (hf : ∀ e, attrProj (f e) = attrProj e) (i : Int) (s : Store) :
    (setField f i s).map attrProj = s.map attrProj := by
  unfold setField
  rw [List.map_map]
  refine List.map_congr_left ?_
  intro e _
  show attrProj (if e.employee_id = i then f e else e) = attrProj e
  split
  · exact hf e
  · rfl

theorem getById_setField {f : Employee → Employee}
    (hid : ∀ e, (f e).employee_id = e.employee_id) (i : Int) (s : Store) (j : Int) :
    getById (setField f i s) j =
      (getById s j).map (fun e => if e.employee_id = i then f e else e) := by
  induction s with
  | nil => rfl
  | cons a s ih =>
    have hhead : (if a.employee_id = i then f a else a).employee_id = a.employee_id := by
      split
      · exact hid a
      · rfl
    simp only [setField, List.map_cons, getById, List.find?_cons] at ih ⊢
    by_cases haj : a.employee_id = j
    · rw [show ((if a.employee_id = i then f a else a).employee_id == j) = true by
          rw [hhead]; simpa using haj,
        show (a.employee_id == j) = true by simpa using haj]
      rfl
    · rw [show ((if a.employee_id = i then f a else a).employee_id == j) = false by
          rw [hhead]; simpa using haj,
        show (a.employee_id == j) = false by simpa using haj]
      exact ih

theorem getById_setField_ne {f : Employee → Employee}
    (hid : ∀ e, (f e).employee_id = e.employee_id) {i j : Int} (s : Store)
    (h : j ≠ i) : getById (setField f i s) j = getById s j := by
  rw [getById_setField hid]
  cases hg : getById s j with
  | none => rfl
  | some e =>
    have : e.employee_id = j := getById_eq_some_id hg
    simp only [Option.map_some']
    rw [if_neg (by rw [this]; exact h)]

theorem getById_setField_self {f : Employee → Employee}
    (hid : ∀ e, (f e).employee_id = e.employee_id) {i : Int} (s : Store) :
    getById (setField f i s) i = (getById s i).map f := by
  rw [getById_setField hid]
  cases hg : getById s i with
  | none => rfl
  | some e =>
    have : e.employee_id = i := getById_eq_some_id hg
    simp only [Option.map_some']
    rw [if_pos this]

/-! ## Validate-pass characterization -/

/-- The value the validate pass leaves in `manager_id` for a snapshot row:
kept exactly when it is a member of the candidate set at the row's level plus
one, recomputed from the row's current department/region/location. -/
def mgrFix (s0 : Store) (e : Employee) : Option Int :=
  match e.job_level with
  | none => e.manager_id
  | some jl =>
    e.manager_id.bind fun m =>
      if m ∈ _candidate_ids_for_level s0 e.department (jl + 1) e.region e.location
      then some m else none

/-- The value the validate pass leaves in `supervisor_id`: level plus two. -/
def supFix (s0 : Store) (e : Employee) : Option Int :=
  match e.job_level with
  | none => e.supervisor_id
  | some jl =>
    e.supervisor_id.bind fun m =>
      if m ∈ _candidate_ids_for_level s0 e.department (jl + 2) e.region e.location
      then some m else none

theorem mgrFix_none {s0 : Store} {e : Employee} (h : e.manager_id = none) :
    mgrFix s0 e = none := by
  unfold mgrFix
  cases e.job_level <;> simp [h]

theorem supFix_none {s0 : Store} {e : Employee} (h : e.supervisor_id = none) :
    supFix s0 e = none := by
  unfold supFix
  cases e.job_level <;> simp [h]

theorem clearManager_attr (i : Int) (s : Store) :
    (clearManager i s).map attrProj = s.map attrProj := by
  unfold clearManager
  refine map_attrProj_setField ?_ i s
  exact fun _ => rfl

theorem clearSupervisor_attr (i : Int) (s : Store) :
    (clearSupervisor i s).map attrProj = s.map attrProj := by
  unfold clearSupervisor
  refine map_attrProj_setField ?_ i s
  exact fun _ => rfl

theorem setManager_attr (m i : Int) (s : Store) :
    (setManager m i s).map attrProj = s.map attrProj := by
  unfold setManager
  refine map_attrProj_setField ?_ i s
  exact fun _ => rfl

theorem setSupervisor_attr (m i : Int) (s : Store) :
    (setSupervisor m i s).map attrProj = s.map attrProj := by
  unfold setSupervisor
  refine map_attrProj_setField ?_ i s
  exact fun _ => rfl

theorem getById_clearManager_ne {i j : Int} (s : Store) (h : j ≠ i) :
    getById (clearManager i s) j = getById s j := by
  unfold clearManager
  refine getById_setField_ne ?_ s h
  exact fun _ => rfl

theorem getById_clearSupervisor_ne {i j : Int} (s : Store) (h : j ≠ i) :
    getById (clearSupervisor i s) j = getById s j := by
  unfold clearSupervisor
  refine getById_setField_ne ?_ s h
  exact fun _ => rfl

theorem getById_setManager_ne {m i j : Int} (s : Store) (h : j ≠ i) :
    getById (setManager m i s) j = getById s j := by
  unfold setManager
  refine getById_setField_ne ?_ s h
  exact fun _ => rfl

theorem getById_setSupervisor_ne {m i j : Int} (s : Store) (h : j ≠ i) :
    getById (setSupervisor m i s) j = getById s j := by
  unfold setSupervisor
  refine getById_setField_ne ?_ s h
  exact fun _ => rfl

theorem getById_clearManager_self {i : Int} (s : Store) :
    getById (clearManager i s) i =
      (getById s i).map (fun e => { e with manager_id := none }) := by
  unfold clearManager
  refine getById_setField_self ?_ s
  exact fun _ => rfl

theorem getById_clearSupervisor_self {i : Int} (s : Store) :
    getById (clearSupervisor i s) i =
      (getById s i).map (fun e => { e with supervisor_id := none }) := by
  unfold clearSupervisor
  refine getById_setField_self ?_ s
  exact fun _ => rfl

theorem getById_setManager_self {m i : Int} (s : Store) :
    getById (setManager m i s) i =
      (getById s i).map (fun e => { e with manager_id := some m }) := by
  unfold setManager
  refine getById_setField_self ?_ s
  exact fun _ => rfl

theorem getById_setSupervisor_self {m i : Int} (s : Store) :
    getById (setSupervisor m i s) i =
      (getById s i).map (fun e => { e with supervisor_id := some m }) := by
  unfold setSupervisor
  refine getById_setField_self ?_ s
  exact fun _ => rfl

theorem validateMgr_facts {s0 st : Store} {row : Employee} {jl : Int}
    (hattr : st.map attrProj = s0.map attrProj) (hjl : row.job_level = some jl) :
    (validateMgr st row jl).map attrProj = st.map attrProj ∧
    (∀ j, j ≠ row.employee_id → getById (validateMgr st row jl) j = getById st j) ∧
    (∀ e0, getById st row.employee_id = some e0 → e0.manager_id = row.manager_id →
      getById (validateMgr st row jl) row.employee_id =
        some { e0 with manager_id := mgrFix s0 row }) := by
  cases hrm : row.manager_id with
  | none =>
    have hv : validateMgr st row jl = st := by
      unfold validateMgr
      rw [hrm]
    have hfix : mgrFix s0 row = none := by
      unfold mgrFix
      rw [hjl, hrm]
      rfl
    rw [hv]
    refine ⟨rfl, fun j _ => rfl, ?_⟩
    intro e0 hg hm
    rw [hg, hfix]
    have he : ({ e0 with manager_id := none } : Employee) = e0 := by
      rw [← hm]
    rw [he]
  | some m =>
    have hvalid : _is_valid_leader_id st row.department jl row.region row.location
        (some m) 1 =
        decide (m ∈ _candidate_ids_for_level s0 row.department (jl + 1) row.region
          row.location) := by
      show decide (m ∈ _candidate_ids_for_level st row.department (jl + 1) row.region
        row.location) = _
      rw [candidate_ids_congr hattr]
    have hv0 : validateMgr st row jl =
        (if _is_valid_leader_id st row.department jl row.region row.location (some m) 1
         then st else clearManager row.employee_id st) := by
      unfold validateMgr
      rw [hrm]
    have hfix : mgrFix s0 row =
        (if m ∈ _candidate_ids_for_level s0 row.department (jl + 1) row.region
          row.location then some m else none) := by
      unfold mgrFix
      rw [hjl, hrm]
      rfl
    by_cases hmem : m ∈ _candidate_ids_for_level s0 row.department (jl + 1) row.region
        row.location
    · have hv : validateMgr st row jl = st := by
        rw [hv0, hvalid, if_pos (by simpa using hmem)]
      rw [hv]
      refine ⟨rfl, fun j _ => rfl, ?_⟩
      intro e0 hg hm
      rw [hg, hfix, if_pos hmem]
      have he : ({ e0 with manager_id := some m } : Employee) = e0 := by
        rw [← hm]
      rw [he]
    · have hv : validateMgr st row jl = clearManager row.employee_id st := by
        rw [hv0, hvalid, if_neg (by simpa using hmem)]
      rw [hv]
      refine ⟨clearManager_attr _ _, fun j hj => getById_clearManager_ne _ hj, ?_⟩
      intro e0 hg hm
      rw [getById_clearManager_self, hg, hfix, if_neg hmem]
      rfl

theorem validateSup_facts {s0 st : Store} {row : Employee} {jl : Int}
    (hattr : st.map attrProj = s0.map attrProj) (hjl : row.job_level = some jl) :
    (validateSup st row jl).map attrProj = st.map attrProj ∧
    (∀ j, j ≠ row.employee_id → getById (validateSup st row jl) j = getById st j) ∧
    (∀ e0, getById st row.employee_id = some e0 → e0.supervisor_id = row.supervisor_id →
      getById (validateSup st row jl) row.employee_id =
        some { e0 with supervisor_id := supFix s0 row }) := by
  cases hrs : row.supervisor_id with
  | none =>
    have hv : validateSup st row jl = st := by
      unfold validateSup
      rw [hrs]
    have hfix : supFix s0 row = none := by
      unfold supFix
      rw [hjl, hrs]
      rfl
    rw [hv]
    refine ⟨rfl, fun j _ => rfl, ?_⟩
    intro e0 hg hm
    rw [hg, hfix]
    have he : ({ e0 with supervisor_id := none } : Employee) = e0 := by
      rw [← hm]
    rw [he]
  | some m2 =>
    have hvalid : _is_valid_leader_id st row.department jl row.region row.location
        (some m2) 2 =
        decide (m2 ∈ _candidate_ids_for_level s0 row.department (jl + 2) row.region
          row.location) := by
      show decide (m2 ∈ _candidate_ids_for_level st row.department (jl + 2) row.region
        row.location) = _
      rw [candidate_ids_congr hattr]
    have hv0 : validateSup st row jl =
        (if _is_valid_leader_id st row.department jl row.region row.location (some m2) 2
         then st else clearSupervisor row.employee_id st) := by
      unfold validateSup
      rw [hrs]
    have hfix : supFix s0 row =
        (if m2 ∈ _candidate_ids_for_level s0 row.department (jl + 2) row.region
          row.location then some m2 else none) := by
      unfold supFix
      rw [hjl, hrs]
      rfl
    by_cases hmem : m2 ∈ _candidate_ids_for_level s0 row.department (jl + 2) row.region
        row.location
    · have hv : validateSup st row jl = st := by
        rw [hv0, hvalid, if_pos (by simpa using hmem)]
      rw [hv]
      refine ⟨rfl, fun j _ => rfl, ?_⟩
      intro e0 hg hm
      rw [hg, hfix, if_pos hmem]
      have he : ({ e0 with supervisor_id := some m2 } : Employee) = e0 := by
        rw [← hm]
      rw [he]
    · have hv : validateSup st row jl = clearSupervisor row.employee_id st := by
        rw [hv0, hvalid, if_neg (by simpa using hmem)]
      rw [hv]
      refine ⟨clearSupervisor_attr _ _, fun j hj => getById_clearSupervisor_ne _ hj, ?_⟩
      intro e0 hg hm
      rw [getById_clearSupervisor_self, hg, hfix, if_neg hmem]
      rfl

theorem validateStep_facts {s0 st st1 : Store} {row : Employee}
    (hattr : st.map attrProj = s0.map attrProj)
    (hstep : validateStep st row = some st1) :
    st1.map attrProj = st.map attrProj ∧
    (∀ j, j ≠ row.employee_id → getById st1 j = getById st j) ∧
    row.job_level.isSome ∧
    (∀ e0, getById st row.employee_id = some e0 →
      e0.manager_id = row.manager_id → e0.supervisor_id = row.supervisor_id →
      getById st1 row.employee_id =
        some { e0 with manager_id := mgrFix s0 row, supervisor_id := supFix s0 row }) := by
  unfold validateStep at hstep
  cases hjl : row.job_level with
  | none => rw [hjl] at hstep; cases hstep
  | some jl =>
    rw [hjl] at hstep
    have hst1 : validateSup (validateMgr st row jl) row jl = st1 := Option.some.inj hstep
    rcases validateMgr_facts hattr hjl with ⟨hMattr, hMne, hMself⟩
    rcases @validateSup_facts s0 (validateMgr st row jl) row jl
      (hMattr.trans hattr) hjl with ⟨hSattr, hSne, hSself⟩
    rw [hst1] at hSattr hSne hSself
    refine ⟨hSattr.trans hMattr, ?_, rfl, ?_⟩
    · intro j hj
      rw [hSne j hj, hMne j hj]
    · intro e0 hg hm hsup
      have h1 := hMself e0 hg hm
      exact hSself { e0 with manager_id := mgrFix s0 row } h1 hsup

theorem employee_eta_links (e : Employee) {m s : Option Int}
    (hm : e.manager_id = m) (hs : e.supervisor_id = s) :
    ({ e with manager_id := m, supervisor_id := s } : Employee) = e := by
  subst hm
  subst hs
  rfl

theorem validate_loop (s0 : Store) (rows : List Employee) :
    ∀ (st st' : Store),
      st.map attrProj = s0.map attrProj →
      (rows.map (·.employee_id)).Nodup →
      optFoldl validateStep st rows = some st' →
      st'.map attrProj = st.map attrProj ∧
      (∀ r ∈ rows, r.job_level.isSome) ∧
      (∀ i, (∀ r ∈ rows, r.employee_id ≠ i) → getById st' i = getById st i) ∧
      (∀ r ∈ rows, ∀ e0, getById st r.employee_id = some e0 →
        e0.manager_id = r.manager_id → e0.supervisor_id = r.supervisor_id →
        getById st' r.employee_id =
          some { e0 with manager_id := mgrFix s0 r, supervisor_id := supFix s0 r }) := by
  induction rows with
  | nil =>
    intro st st' _ _ hfold
    have hst : st = st' := Option.some.inj hfold
    subst hst
    exact ⟨rfl, fun r hr => absurd hr (List.not_mem_nil r),
      fun i _ => rfl, fun r hr => absurd hr (List.not_mem_nil r)⟩
  | cons row rest ih =>
    intro st st' hattr hnd hfold
    unfold optFoldl at hfold
    cases hstep : validateStep st row with
    | none =>
      rw [hstep] at hfold
      exact Option.noConfusion hfold
    | some st1 =>
      rw [hstep] at hfold
      rcases validateStep_facts hattr hstep with ⟨h1attr, h1ne, h1jl, h1self⟩
      rw [List.map_cons, List.nodup_cons] at hnd
      have hrowid : row.employee_id ∉ rest.map (·.employee_id) := hnd.1
      rcases ih st1 st' (h1attr.trans hattr) hnd.2 hfold with ⟨i1, i2, i3, i4⟩
      refine ⟨i1.trans h1attr, ?_, ?_, ?_⟩
      · intro r hr
        rcases List.mem_cons.1 hr with rfl | hr
        · exact h1jl
        · exact i2 r hr
      · intro i hni
        have h3 : getById st' i = getById st1 i :=
          i3 i fun r hr => hni r (List.mem_cons_of_mem _ hr)
        rw [h3, h1ne i (Ne.symm (hni row (List.mem_cons_self _ _)))]
      · intro r hr e0 hg hm hs
        rcases List.mem_cons.1 hr with rfl | hr
        · have hself := h1self e0 hg hm hs
          have h3 : getById st' r.employee_id = getById st1 r.employee_id := by
            refine i3 r.employee_id ?_
            intro r' hr' hc
            exact hrowid (hc ▸ List.mem_map_of_mem _ hr')
          rw [h3, hself]
        · have hne : r.employee_id ≠ row.employee_id := by
            intro hc
            exact hrowid (hc ▸ List.mem_map_of_mem _ hr)
          have hg1 : getById st1 r.employee_id = some e0 := by
            rw [h1ne _ hne]
            exact hg
          exact i4 r hr e0 hg1 hm hs

/-- Full characterization of the validate pass: readable columns and dates
are untouched, every linked record was forced to a non-NULL level, and every
record's links end up exactly at their `mgrFix`/`supFix` values. -/
theorem validate_master {s s' : Store} (hnd : (s.map (·.employee_id)).Nodup)
    (h : validate_manager_id_supervisor_id s = some s') :
    s'.map attrProj = s.map attrProj ∧
    (∀ e ∈ s, (e.manager_id.isSome || e.supervisor_id.isSome) = true →
      e.job_level.isSome) ∧
    (∀ e ∈ s, getById s' e.employee_id =
      some { e with manager_id := mgrFix s e, supervisor_id := supFix s e }) := by
  unfold validate_manager_id_supervisor_id at h
  have hsub : (s.filter fun e => e.manager_id.isSome || e.supervisor_id.isSome).map
      (·.employee_id) |>.Nodup :=
    ((List.filter_sublist s).map (·.employee_id)).nodup hnd
  rcases validate_loop s (s.filter fun e => e.manager_id.isSome || e.supervisor_id.isSome)
    s s' rfl hsub h with ⟨l1, l2, l3, l4⟩
  refine ⟨l1, ?_, ?_⟩
  · intro e he hl
    exact l2 e (List.mem_filter.2 ⟨he, hl⟩)
  · intro e he
    by_cases hl : (e.manager_id.isSome || e.supervisor_id.isSome) = true
    · exact l4 e (List.mem_filter.2 ⟨he, hl⟩) e (getById_of_mem hnd he) rfl rfl
    · have hm : e.manager_id = none := by
        cases hmgr : e.manager_id
        · rfl
        · rw [hmgr] at hl; simp at hl
      have hs : e.supervisor_id = none := by
        cases hsup : e.supervisor_id
        · rfl
        · rw [hsup] at hl; simp at hl
      have hnot : ∀ r ∈ s.filter fun e => e.manager_id.isSome || e.supervisor_id.isSome,
          r.employee_id ≠ e.employee_id := by
        intro r hr hc
        have hrs : r ∈ s := List.mem_of_mem_filter hr
        have hpr := List.of_mem_filter hr
        have : getById s r.employee_id = some r := getById_of_mem hnd hrs
        rw [hc, getById_of_mem hnd he] at this
        have hre : e = r := Option.some.inj this
        rw [← hre] at hpr
        rw [hm, hs] at hpr
        cases hpr
      rw [l3 e.employee_id hnot, getById_of_mem hnd he]
      have he2 : ({ e with manager_id := mgrFix s e, supervisor_id := supFix s e } :
          Employee) = e := by
        rw [mgrFix_none hm, supFix_none hs]
        exact employee_eta_links e hm hs
      rw [he2]

/-! ## Claim C5 -/

/-- C5: for every record, the validate pass leaves `manager_id` equal to the
stored value exactly when that value is a member of the candidate set freshly
computed at target level `job_level + 1` from the record's current
department/region/location, and null otherwise (so a null stays null and a
non-member is cleared); `supervisor_id` likewise at `job_level + 2`.  In
particular the pass never writes a non-null value into either field. -/
theorem validate_pass_spec (s s' : Store) (hnd : (s.map (·.employee_id)).Nodup)
    (h : validate_manager_id_supervisor_id s = some s') :
    ∀ e ∈ s, ∀ jl, e.job_level = some jl →
      ∃ e' ∈ s', e'.employee_id = e.employee_id ∧
        e'.manager_id = (e.manager_id.bind fun m =>
          (if m ∈ _candidate_ids_for_level s e.department (jl + 1) e.region e.location
           then some m else none)) ∧
        e'.supervisor_id = (e.supervisor_id.bind fun m =>
          (if m ∈ _candidate_ids_for_level s e.department (jl + 2) e.region e.location
           then some m else none)) := by
  intro e he jl hjl
  rcases validate_master hnd h with ⟨-, -, h3⟩
  have hg := h3 e he
  refine ⟨{ e with manager_id := mgrFix s e, supervisor_id := supFix s e },
    getById_mem hg, rfl, ?_, ?_⟩
  · show mgrFix s e = _
    unfold mgrFix
    rw [hjl]
  · show supFix s e = _
    unfold supFix
    rw [hjl]

/-- C5 witness store: a level-2 record with a dangling manager link and a
valid level-4 supervisor link. -/
def c5Store : Store :=
  [⟨1, some "Eng", some 2, none, none, some 99, some 3, none, none, none⟩,
   ⟨3, some "Eng", some 4, none, none, none, none, none, none, none⟩]

/-- C5 result store: the dangling manager link is cleared, the valid
supervisor link is kept. -/
def c5Store' : Store :=
  [⟨1, some "Eng", some 2, none, none, none, some 3, none, none, none⟩,
   ⟨3, some "Eng", some 4, none, none, none, none, none, none, none⟩]

/-- C5 witness: on the concrete store, the pass clears the non-member manager
and keeps the member supervisor. -/
theorem validate_pass_spec_witness :
    ∃ e' ∈ c5Store', e'.employee_id =
        (⟨1, some "Eng", some 2, none, none, some 99, some 3, none, none,
          none⟩ : Employee).employee_id ∧
      e'.manager_id = ((some 99 : Option Int).bind fun m =>
        (if m ∈ _candidate_ids_for_level c5Store (some "Eng") (2 + 1) none none
         then some m else none)) ∧
      e'.supervisor_id = ((some 3 : Option Int).bind fun m =>
        (if m ∈ _candidate_ids_for_level c5Store (some "Eng") (2 + 2) none none
         then some m else none)) :=
  validate_pass_spec c5Store c5Store' (by decide) (by decide)
    ⟨1, some "Eng", some 2, none, none, some 99, some 3, none, none, none⟩
    (by decide) 2 rfl

/-! ## Fill-pass characterization -/

theorem getById_exists_of_attr {s t : Store} (h : s.map attrProj = t.map attrProj)
    {i : Int} {e : Employee} (hg : getById s i = some e) :
    ∃ e', getById t i = some e' ∧ attrProj e' = attrProj e := by
  have hc := getById_congr h i
  rw [hg] at hc
  cases hgt : getById t i with
  | none => rw [hgt] at hc; cases hc
  | some e' =>
    rw [hgt] at hc
    exact ⟨e', rfl, Option.some.inj hc.symm⟩

theorem managerStep_facts {s0 st : Store} {row : Employee}
    (hattr : st.map attrProj = s0.map attrProj) :
    (managerStep st row).map attrProj = st.map attrProj ∧
    (∀ j, j ≠ row.employee_id → getById (managerStep st row) j = getById st j) ∧
    (∀ e0, getById st row.employee_id = some e0 →
      (getById (managerStep st row) row.employee_id = some e0 ∧
        (row.job_level.getD 0 = 5 ∨
         _candidate_ids_for_level s0 row.department (row.job_level.getD 0 + 1) row.region
           row.location = [])) ∨
      (∃ m, getById (managerStep st row) row.employee_id =
          some { e0 with manager_id := some m } ∧
        row.job_level.getD 0 ≠ 5 ∧
        m ∈ _candidate_ids_for_level s0 row.department (row.job_level.getD 0 + 1)
          row.region row.location)) := by
  by_cases h5 : row.job_level.getD 0 = 5
  · have hv : managerStep st row = st := by
      unfold managerStep
      rw [if_pos h5]
    rw [hv]
    exact ⟨rfl, fun j _ => rfl, fun e0 hg => Or.inl ⟨hg, Or.inl h5⟩⟩
  · cases hfl : _find_leader st row.department (row.job_level.getD 0) row.region
        row.location 1 (fun e => e.manager_id) with
    | none =>
      have hv : managerStep st row = st := by
        unfold managerStep
        rw [if_neg h5, hfl]
      rw [hv]
      have hnil : _candidate_ids_for_level s0 row.department (row.job_level.getD 0 + 1)
          row.region row.location = [] := by
        rw [← candidate_ids_congr hattr]
        exact (find_leader_none_iff st row.department (row.job_level.getD 0) row.region
          row.location 1 (fun e => e.manager_id)).1 hfl
      exact ⟨rfl, fun j _ => rfl, fun e0 hg => Or.inl ⟨hg, Or.inr hnil⟩⟩
    | some m =>
      have hv : managerStep st row = setManager m row.employee_id st := by
        unfold managerStep
        rw [if_neg h5, hfl]
      rw [hv]
      have hmem : m ∈ _candidate_ids_for_level s0 row.department
          (row.job_level.getD 0 + 1) row.region row.location := by
        rw [← candidate_ids_congr hattr]
        exact find_leader_mem hfl
      refine ⟨setManager_attr _ _ _, fun j hj => getById_setManager_ne _ hj, ?_⟩
      intro e0 hg
      refine Or.inr ⟨m, ?_, h5, hmem⟩
      rw [getById_setManager_self, hg]
      rfl

theorem supervisorStep_facts {s0 st : Store} {row : Employee}
    (hattr : st.map attrProj = s0.map attrProj) :
    (supervisorStep st row).map attrProj = st.map attrProj ∧
    (∀ j, j ≠ row.employee_id → getById (supervisorStep st row) j = getById st j) ∧
    (∀ e0, getById st row.employee_id = some e0 →
      (getById (supervisorStep st row) row.employee_id = some e0 ∧
        (row.job_level.getD 0 = 4 ∨
         _candidate_ids_for_level s0 row.department (row.job_level.getD 0 + 2) row.region
           row.location = [])) ∨
      (∃ m, getById (supervisorStep st row) row.employee_id =
          some { e0 with supervisor_id := some m } ∧
        row.job_level.getD 0 ≠ 4 ∧
        m ∈ _candidate_ids_for_level s0 row.department (row.job_level.getD 0 + 2)
          row.region row.location)) := by
  by_cases h4 : row.job_level.getD 0 = 4
  · have hv : supervisorStep st row = st := by
      unfold supervisorStep
      rw [if_pos h4]
    rw [hv]
    exact ⟨rfl, fun j _ => rfl, fun e0 hg => Or.inl ⟨hg, Or.inl h4⟩⟩
  · cases hfl : _find_leader st row.department (row.job_level.getD 0) row.region
        row.location 2 (fun e => e.supervisor_id) with
    | none =>
      have hv : supervisorStep st row = st := by
        unfold supervisorStep
        rw [if_neg h4, hfl]
      rw [hv]
      have hnil : _candidate_ids_for_level s0 row.department (row.job_level.getD 0 + 2)
          row.region row.location = [] := by
        rw [← candidate_ids_congr hattr]
        exact (find_leader_none_iff st row.department (row.job_level.getD 0) row.region
          row.location 2 (fun e => e.supervisor_id)).1 hfl
      exact ⟨rfl, fun j _ => rfl, fun e0 hg => Or.inl ⟨hg, Or.inr hnil⟩⟩
    | some m =>
      have hv : supervisorStep st row = setSupervisor m row.employee_id st := by
        unfold supervisorStep
        rw [if_neg h4, hfl]
      rw [hv]
      have hmem : m ∈ _candidate_ids_for_level s0 row.department
          (row.job_level.getD 0 + 2) row.region row.location := by
        rw [← candidate_ids_congr hattr]
        exact find_leader_mem hfl
      refine ⟨setSupervisor_attr _ _ _, fun j hj => getById_setSupervisor_ne _ hj, ?_⟩
      intro e0 hg
      refine Or.inr ⟨m, ?_, h4, hmem⟩
      rw [getById_setSupervisor_self, hg]
      rfl

theorem managerFill_loop (s0 : Store) (rows : List Employee) :
    ∀ st : Store, st.map attrProj = s0.map attrProj →
      (rows.map (·.employee_id)).Nodup →
      (rows.foldl managerStep st).map attrProj = st.map attrProj ∧
      (∀ i, (∀ r ∈ rows, r.employee_id ≠ i) →
        getById (rows.foldl managerStep st) i = getById st i) ∧
      (∀ r ∈ rows, ∀ e0, getById st r.employee_id = some e0 →
        (getById (rows.foldl managerStep st) r.employee_id = some e0 ∧
          (r.job_level.getD 0 = 5 ∨
           _candidate_ids_for_level s0 r.department (r.job_level.getD 0 + 1) r.region
             r.location = [])) ∨
        (∃ m, getById (rows.foldl managerStep st) r.employee_id =
            some { e0 with manager_id := some m } ∧
          r.job_level.getD 0 ≠ 5 ∧
          m ∈ _candidate_ids_for_level s0 r.department (r.job_level.getD 0 + 1)
            r.region r.location)) := by
  induction rows with
  | nil =>
    intro st _ _
    exact ⟨rfl, fun i _ => rfl, fun r hr => absurd hr (List.not_mem_nil r)⟩
  | cons row rest ih =>
    intro st hattr hnd
    rw [List.map_cons, List.nodup_cons] at hnd
    have hrowid : row.employee_id ∉ rest.map (·.employee_id) := hnd.1
    rcases @managerStep_facts s0 st row hattr with ⟨h1attr, h1ne, h1self⟩
    rcases ih (managerStep st row) (h1attr.trans hattr) hnd.2 with ⟨i1, i2, i3⟩
    rw [List.foldl_cons]
    refine ⟨i1.trans h1attr, ?_, ?_⟩
    · intro i hni
      rw [i2 i fun r hr => hni r (List.mem_cons_of_mem _ hr),
        h1ne i (Ne.symm (hni row (List.mem_cons_self _ _)))]
    · intro r hr e0 hg
      rcases List.mem_cons.1 hr with rfl | hr
      · have hfix : getById (rest.foldl managerStep (managerStep st r)) r.employee_id =
            getById (managerStep st r) r.employee_id := by
          refine i2 r.employee_id ?_
          intro r' hr' hc
          exact hrowid (hc ▸ List.mem_map_of_mem _ hr')
        rcases h1self e0 hg with ⟨hkeep, hwhy⟩ | ⟨m, hset, h5, hmem⟩
        · exact Or.inl ⟨by rw [hfix, hkeep], hwhy⟩
        · exact Or.inr ⟨m, by rw [hfix, hset], h5, hmem⟩
      · have hne : r.employee_id ≠ row.employee_id := by
          intro hc
          exact hrowid (hc ▸ List.mem_map_of_mem _ hr)
        have hg1 : getById (managerStep st row) r.employee_id = some e0 := by
          rw [h1ne _ hne]
          exact hg
        exact i3 r hr e0 hg1

theorem supervisorFill_loop (s0 : Store) (rows : List Employee) :
    ∀ st : Store, st.map attrProj = s0.map attrProj →
      (rows.map (·.employee_id)).Nodup →
      (rows.foldl supervisorStep st).map attrProj = st.map attrProj ∧
      (∀ i, (∀ r ∈ rows, r.employee_id ≠ i) →
        getById (rows.foldl supervisorStep st) i = getById st i) ∧
      (∀ r ∈ rows, ∀ e0, getById st r.employee_id = some e0 →
        (getById (rows.foldl supervisorStep st) r.employee_id = some e0 ∧
          (r.job_level.getD 0 = 4 ∨
           _candidate_ids_for_level s0 r.department (r.job_level.getD 0 + 2) r.region
             r.location = [])) ∨
        (∃ m, getById (rows.foldl supervisorStep st) r.employee_id =
            some { e0 with supervisor_id := some m } ∧
          r.job_level.getD 0 ≠ 4 ∧
          m ∈ _candidate_ids_for_level s0 r.department (r.job_level.getD 0 + 2)
            r.region r.location)) := by
  induction rows with
  | nil =>
    intro st _ _
    exact ⟨rfl, fun i _ => rfl, fun r hr => absurd hr (List.not_mem_nil r)⟩
  | cons row rest ih =>
    intro st hattr hnd
    rw [List.map_cons, List.nodup_cons] at hnd
    have hrowid : row.employee_id ∉ rest.map (·.employee_id) := hnd.1
    rcases @supervisorStep_facts s0 st row hattr with ⟨h1attr, h1ne, h1self⟩
    rcases ih (supervisorStep st row) (h1attr.trans hattr) hnd.2 with ⟨i1, i2, i3⟩
    rw [List.foldl_cons]
    refine ⟨i1.trans h1attr, ?_, ?_⟩
    · intro i hni
      rw [i2 i fun r hr => hni r (List.mem_cons_of_mem _ hr),
        h1ne i (Ne.symm (hni row (List.mem_cons_self _ _)))]
    · intro r hr e0 hg
      rcases List.mem_cons.1 hr with rfl | hr
      · have hfix : getById (rest.foldl supervisorStep (supervisorStep st r))
            r.employee_id = getById (supervisorStep st r) r.employee_id := by
          refine i2 r.employee_id ?_
          intro r' hr' hc
          exact hrowid (hc ▸ List.mem_map_of_mem _ hr')
        rcases h1self e0 hg with ⟨hkeep, hwhy⟩ | ⟨m, hset, h4, hmem⟩
        · exact Or.inl ⟨by rw [hfix, hkeep], hwhy⟩
        · exact Or.inr ⟨m, by rw [hfix, hset], h4, hmem⟩
      · have hne : r.employee_id ≠ row.employee_id := by
          intro hc
          exact hrowid (hc ▸ List.mem_map_of_mem _ hr)
        have hg1 : getById (supervisorStep st row) r.employee_id = some e0 := by
          rw [h1ne _ hne]
          exact hg
        exact i3 r hr e0 hg1

/-- Full characterization of the manager-fill pass. -/
theorem managerFill_master {s : Store} (hnd : (s.map (·.employee_id)).Nodup) :
    (update_employees_manager_id s).map attrProj = s.map attrProj ∧
    (∀ e ∈ s, e.manager_id.isSome →
      getById (update_employees_manager_id s) e.employee_id = some e) ∧
    (∀ e ∈ s, e.manager_id = none →
      (getById (update_employees_manager_id s) e.employee_id = some e ∧
        (e.job_level.getD 0 = 5 ∨
         _candidate_ids_for_level s e.department (e.job_level.getD 0 + 1) e.region
           e.location = [])) ∨
      (∃ m, getById (update_employees_manager_id s) e.employee_id =
          some { e with manager_id := some m } ∧
        e.job_level.getD 0 ≠ 5 ∧
        m ∈ _candidate_ids_for_level s e.department (e.job_level.getD 0 + 1) e.region
          e.location)) := by
  have hsub : ((s.filter fun e => e.manager_id = none).map (·.employee_id)).Nodup :=
    ((List.filter_sublist s).map (·.employee_id)).nodup hnd
  rcases managerFill_loop s (s.filter fun e => e.manager_id = none) s rfl hsub
    with ⟨l1, l2, l3⟩
  unfold update_employees_manager_id
  refine ⟨l1, ?_, ?_⟩
  · intro e he hsome
    have hnot : ∀ r ∈ s.filter fun e => e.manager_id = none,
        r.employee_id ≠ e.employee_id := by
      intro r hr hc
      have hrs : r ∈ s := List.mem_of_mem_filter hr
      have hpr := List.of_mem_filter hr
      have hg : getById s r.employee_id = some r := getById_of_mem hnd hrs
      rw [hc, getById_of_mem hnd he] at hg
      have hre : e = r := Option.some.inj hg
      rw [← hre] at hpr
      rw [show (decide (e.manager_id = none)) = false by
        cases hmgr : e.manager_id
        · rw [hmgr] at hsome; cases hsome
        · simp] at hpr
      cases hpr
    rw [l2 e.employee_id hnot]
    exact getById_of_mem hnd he
  · intro e he hnone
    have hmem : e ∈ s.filter fun e => e.manager_id = none :=
      List.mem_filter.2 ⟨he, by rw [hnone]; rfl⟩
    exact l3 e hmem e (getById_of_mem hnd he)

/-- Full characterization of the supervisor-fill pass. -/
theorem supervisorFill_master {s : Store} (hnd : (s.map (·.employee_id)).Nodup) :
    (update_employees_supervisor_id s).map attrProj = s.map attrProj ∧
    (∀ e ∈ s, e.supervisor_id.isSome →
      getById (update_employees_supervisor_id s) e.employee_id = some e) ∧
    (∀ e ∈ s, e.supervisor_id = none →
      (getById (update_employees_supervisor_id s) e.employee_id = some e ∧
        (e.job_level.getD 0 = 4 ∨
         _candidate_ids_for_level s e.department (e.job_level.getD 0 + 2) e.region
           e.location = [])) ∨
      (∃ m, getById (update_employees_supervisor_id s) e.employee_id =
          some { e with supervisor_id := some m } ∧
        e.job_level.getD 0 ≠ 4 ∧
        m ∈ _candidate_ids_for_level s e.department (e.job_level.getD 0 + 2) e.region
          e.location)) := by
  have hsub : ((s.filter fun e => e.supervisor_id = none).map (·.employee_id)).Nodup :=
    ((List.filter_sublist s).map (·.employee_id)).nodup hnd
  rcases supervisorFill_loop s (s.filter fun e => e.supervisor_id = none) s rfl hsub
    with ⟨l1, l2, l3⟩
  unfold update_employees_supervisor_id
  refine ⟨l1, ?_, ?_⟩
  · intro e he hsome
    have hnot : ∀ r ∈ s.filter fun e => e.supervisor_id = none,
        r.employee_id ≠ e.employee_id := by
      intro r hr hc
      have hrs : r ∈ s := List.mem_of_mem_filter hr
      have hpr := List.of_mem_filter hr
      have hg : getById s r.employee_id = some r := getById_of_mem hnd hrs
      rw [hc, getById_of_mem hnd he] at hg
      have hre : e = r := Option.some.inj hg
      rw [← hre] at hpr
      rw [show (decide (e.supervisor_id = none)) = false by
        cases hsup : e.supervisor_id
        · rw [hsup] at hsome; cases hsome
        · simp] at hpr
      cases hpr
    rw [l2 e.employee_id hnot]
    exact getById_of_mem hnd he
  · intro e he hnone
    have hmem : e ∈ s.filter fun e => e.supervisor_id = none :=
      List.mem_filter.2 ⟨he, by rw [hnone]; rfl⟩
    exact l3 e hmem e (getById_of_mem hnd he)

/-! ## Idempotence of date normalization -/

theorem digitVal_le {c : Char} {k : Nat} (h : digitVal c = some k) : k ≤ 9 := by
  unfold digitVal at h
  split at h <;> first
    | exact Nat.le_of_eq (Option.some.inj h).symm |>.trans (by omega)
    | exact Option.noConfusion h

theorem digitChar_digitVal {c : Char} {k : Nat} (h : digitVal c = some k) :
    digitChar k = c := by
  unfold digitVal at h
  split at h <;> first
    | (rw [← Option.some.inj h]; rfl)
    | exact Option.noConfusion h

theorem digitVal_digitChar {k : Nat} (h : k ≤ 9) : digitVal (digitChar k) = some k := by
  interval_cases k <;> rfl

theorem digitChar_not_ws (n : Nat) : (digitChar n).isWhitespace = false := by
  unfold digitChar
  split <;> decide

theorem parseYear_fourDigits (y : Nat) (h : y ≤ 9999) (rest : List Char) :
    parseYear (fourDigits y ++ rest) = some (y, rest) := by
  have e1 : digitVal (digitChar (y / 1000)) = some (y / 1000) :=
    digitVal_digitChar (by omega)
  have e2 : digitVal (digitChar (y / 100 % 10)) = some (y / 100 % 10) :=
    digitVal_digitChar (by omega)
  have e3 : digitVal (digitChar (y / 10 % 10)) = some (y / 10 % 10) :=
    digitVal_digitChar (by omega)
  have e4 : digitVal (digitChar (y % 10)) = some (y % 10) :=
    digitVal_digitChar (by omega)
  have harith : 1000 * (y / 1000) + 100 * (y / 100 % 10) + 10 * (y / 10 % 10) + y % 10
      = y := by omega
  show parseYear (digitChar (y / 1000) :: digitChar (y / 100 % 10) ::
    digitChar (y / 10 % 10) :: digitChar (y % 10) :: rest) = some (y, rest)
  simp only [parseYear, e1, e2, e3, e4, harith]

theorem parseNum2or1_twoDigits (mx n : Nat) (h1 : 1 ≤ n) (h2 : n ≤ mx) (h9 : n ≤ 99)
    (rest : List Char) : parseNum2or1 mx (twoDigits n ++ rest) = some (n, rest) := by
  have e1 : digitVal (digitChar (n / 10)) = some (n / 10) :=
    digitVal_digitChar (by omega)
  have e2 : digitVal (digitChar (n % 10)) = some (n % 10) :=
    digitVal_digitChar (by omega)
  have harith : 10 * (n / 10) + n % 10 = n := by omega
  show parseNum2or1 mx (digitChar (n / 10) :: digitChar (n % 10) :: rest) = some (n, rest)
  simp only [parseNum2or1, e1, e2, harith, if_pos (And.intro h1 h2)]

theorem daysInMonth_le (y m : Nat) : daysInMonth y m ≤ 31 := by
  unfold daysInMonth
  split
  · split <;> omega
  · split <;> omega

theorem finishYMD_some {y m dd : Nat} {r : List Char} {d : YMD}
    (h : finishYMD y m dd r = some d) : r = [] ∧ validYMD d ∧ d = ⟨y, m, dd⟩ := by
  unfold finishYMD at h
  split at h
  · rename_i hcond
    have hd : (⟨y, m, dd⟩ : YMD) = d := Option.some.inj h
    exact ⟨hcond.1, hd ▸ hcond.2, hd.symm⟩
  · exact Option.noConfusion h

theorem strptime_iso_render {d : YMD} (h : validYMD d) :
    strptime_iso (renderChars d) = some d := by
  obtain ⟨h1, h2, h3, h4, h5, h6⟩ := h
  have hd31 : d.day ≤ 31 := le_trans h6 (daysInMonth_le _ _)
  have e1 : parseYear (renderChars d) =
      some (d.year, ('-' :: twoDigits d.month) ++ ('-' :: twoDigits d.day)) :=
    parseYear_fourDigits d.year h2 _
  have e2 : parseSep '-' (('-' :: twoDigits d.month) ++ ('-' :: twoDigits d.day)) =
      some (twoDigits d.month ++ ('-' :: twoDigits d.day)) := rfl
  have e3 : parseNum2or1 12 (twoDigits d.month ++ ('-' :: twoDigits d.day)) =
      some (d.month, '-' :: twoDigits d.day) :=
    parseNum2or1_twoDigits 12 d.month h3 h4 (by omega) _
  have e4 : parseSep '-' ('-' :: twoDigits d.day) = some (twoDigits d.day) := rfl
  have e5 : parseNum2or1 31 (twoDigits d.day) = some (d.day, []) := by
    have h0 := parseNum2or1_twoDigits 31 d.day h5 hd31 (by omega) []
    rwa [List.append_nil] at h0
  have e6 : finishYMD d.year d.month d.day [] = some d := by
    unfold finishYMD
    rw [if_pos ⟨rfl, ⟨h1, h2, h3, h4, h5, h6⟩⟩]
  simp only [strptime_iso, e1, e2, e3, e4, e5, e6]

theorem parseYear_decomp {cs : List Char} {y : Nat} {r : List Char}
    (h : parseYear cs = some (y, r)) :
    ∃ d1 d2 d3 d4, cs = digitChar d1 :: digitChar d2 :: digitChar d3 :: digitChar d4 :: r
      ∧ y = 1000 * d1 + 100 * d2 + 10 * d3 + d4 ∧ d1 ≤ 9 ∧ d2 ≤ 9 ∧ d3 ≤ 9 ∧ d4 ≤ 9 := by
  rcases cs with _ | ⟨c1, _ | ⟨c2, _ | ⟨c3, _ | ⟨c4, rest⟩⟩⟩⟩
  · exact Option.noConfusion h
  · exact Option.noConfusion h
  · exact Option.noConfusion h
  · exact Option.noConfusion h
  · have h' : (match digitVal c1, digitVal c2, digitVal c3, digitVal c4 with
        | some a, some b, some c, some d =>
          some (1000 * a + 100 * b + 10 * c + d, rest)
        | _, _, _, _ => none) = some (y, r) := h
    cases hv1 : digitVal c1 with
    | none => rw [hv1] at h'; exact Option.noConfusion h'
    | some d1 =>
      cases hv2 : digitVal c2 with
      | none => rw [hv1, hv2] at h'; exact Option.noConfusion h'
      | some d2 =>
        cases hv3 : digitVal c3 with
        | none => rw [hv1, hv2, hv3] at h'; exact Option.noConfusion h'
        | some d3 =>
          cases hv4 : digitVal c4 with
          | none => rw [hv1, hv2, hv3, hv4] at h'; exact Option.noConfusion h'
          | some d4 =>
            rw [hv1, hv2, hv3, hv4] at h'
            have hp := Option.some.inj h'
            have hy : 1000 * d1 + 100 * d2 + 10 * d3 + d4 = y := congrArg Prod.fst hp
            have hr : rest = r := congrArg Prod.snd hp
            subst hr
            exact ⟨d1, d2, d3, d4,
              by rw [digitChar_digitVal hv1, digitChar_digitVal hv2,
                digitChar_digitVal hv3, digitChar_digitVal hv4],
              hy.symm, digitVal_le hv1, digitVal_le hv2, digitVal_le hv3, digitVal_le hv4⟩

theorem parseNum2or1_decomp {mx : Nat} {cs : List Char} {v : Nat} {r : List Char}
    (h : parseNum2or1 mx cs = some (v, r)) :
    (∃ d1 d2, cs = digitChar d1 :: digitChar d2 :: r ∧ v = 10 * d1 + d2 ∧
      d1 ≤ 9 ∧ d2 ≤ 9 ∧ 1 ≤ v ∧ v ≤ mx) ∨
    (cs = digitChar v :: r ∧ 1 ≤ v ∧ v ≤ 9) := by
  rcases cs with _ | ⟨c1, _ | ⟨c2, rest⟩⟩
  · exact Option.noConfusion h
  · have h' : (match digitVal c1 with
        | some a => if 1 ≤ a then some (a, ([] : List Char)) else none
        | none => none) = some (v, r) := h
    cases hv1 : digitVal c1 with
    | none => rw [hv1] at h'; exact Option.noConfusion h'
    | some a =>
      rw [hv1] at h'
      have h2 : (if 1 ≤ a then some (a, ([] : List Char)) else none) = some (v, r) := h'
      split at h2
      · have hp := Option.some.inj h2
        have hva : a = v := congrArg Prod.fst hp
        have hr : ([] : List Char) = r := congrArg Prod.snd hp
        subst hva
        rename_i h1a
        exact Or.inr ⟨by rw [digitChar_digitVal hv1, ← hr], h1a, digitVal_le hv1⟩
      · exact Option.noConfusion h2
  · have h' : (match digitVal c1, digitVal c2 with
        | some a, some b =>
          if 1 ≤ 10 * a + b ∧ 10 * a + b ≤ mx then some (10 * a + b, rest) else none
        | some a, none => if 1 ≤ a then some (a, c2 :: rest) else none
        | none, _ => none) = some (v, r) := h
    cases hv1 : digitVal c1 with
    | none => rw [hv1] at h'; exact Option.noConfusion h'
    | some a =>
      cases hv2 : digitVal c2 with
      | none =>
        rw [hv1, hv2] at h'
        have h2 : (if 1 ≤ a then some (a, c2 :: rest) else none) = some (v, r) := h'
        split at h2
        · have hp := Option.some.inj h2
          have hva : a = v := congrArg Prod.fst hp
          have hr : c2 :: rest = r := congrArg Prod.snd hp
          subst hva
          rename_i h1a
          exact Or.inr ⟨by rw [digitChar_digitVal hv1, hr], h1a, digitVal_le hv1⟩
        · exact Option.noConfusion h2
      | some b =>
        rw [hv1, hv2] at h'
        have h2 : (if 1 ≤ 10 * a + b ∧ 10 * a + b ≤ mx then some (10 * a + b, rest)
            else none) = some (v, r) := h'
        split at h2
        · have hp := Option.some.inj h2
          have hva : 10 * a + b = v := congrArg Prod.fst hp
          have hr : rest = r := congrArg Prod.snd hp
          subst hr
          rename_i hcond
          exact Or.inl ⟨a, b,
            by rw [digitChar_digitVal hv1, digitChar_digitVal hv2],
            hva.symm, digitVal_le hv1, digitVal_le hv2, hva ▸ hcond.1, hva ▸ hcond.2⟩
        · exact Option.noConfusion h2

theorem parseSep_decomp {sep : Char} {cs r : List Char} (h : parseSep sep cs = some r) :
    cs = sep :: r := by
  rcases cs with _ | ⟨c, rest⟩
  · exact Option.noConfusion h
  · have h' : (if c = sep then some rest else none) = some r := h
    split at h'
    · rename_i hc
      rw [hc, Option.some.inj h']
    · exact Option.noConfusion h'

theorem dropWhile_eq_self {p : Char → Bool} {l : List Char}
    (h : ∀ c ∈ l, p c = false) : l.dropWhile p = l := by
  cases l with
  | nil => rfl
  | cons a t =>
    rw [List.dropWhile_cons, h a (List.mem_cons_self a t)]
    simp

theorem pyStrip_id {cs : List Char} (h : ∀ c ∈ cs, c.isWhitespace = false) :
    pyStrip cs = cs := by
  unfold pyStrip
  rw [dropWhile_eq_self h,
    dropWhile_eq_self (fun c hc => h c (List.mem_reverse.1 hc)),
    List.reverse_reverse]

theorem renderChars_not_ws (d : YMD) : ∀ c ∈ renderChars d, c.isWhitespace = false := by
  intro c hc
  simp only [renderChars, fourDigits, twoDigits, List.cons_append, List.nil_append,
    List.mem_cons, List.mem_append, List.not_mem_nil, or_false] at hc
  rcases hc with rfl | rfl | rfl | rfl | rfl | rfl | rfl | rfl | rfl | rfl <;>
    first
      | exact digitChar_not_ws _
      | decide

theorem renderChars_length (d : YMD) : (renderChars d).length = 10 := by
  simp [renderChars, fourDigits, twoDigits]

theorem isNullToken_false_of_length {cs : List Char} (h : cs.length = 10) :
    isNullToken cs = false := by
  have hne : ∀ t : List Char, t.length ≠ 10 → ((cs.map Char.toUpper) == t) = false := by
    intro t ht
    rw [beq_eq_false_iff_ne]
    intro he
    exact ht (by rw [← he, List.length_map, h])
  show (List.map Char.toUpper cs == "NA".toList
      || List.map Char.toUpper cs == "N/A".toList
      || List.map Char.toUpper cs == "NULL".toList
      || List.map Char.toUpper cs == "NONE".toList) = false
  rw [hne _ (by decide), hne _ (by decide), hne _ (by decide), hne _ (by decide)]
  rfl

theorem strptime_iso_valid {cs : List Char} {d : YMD} (h : strptime_iso cs = some d) :
    validYMD d := by
  unfold strptime_iso at h
  split at h
  · split at h
    · split at h
      · split at h
        · split at h
          · exact (finishYMD_some h).2.1
          · exact Option.noConfusion h
        · exact Option.noConfusion h
      · exact Option.noConfusion h
    · exact Option.noConfusion h
  · exact Option.noConfusion h

theorem strptime_us_valid {cs : List Char} {d : YMD} (h : strptime_us cs = some d) :
    validYMD d := by
  unfold strptime_us at h
  split at h
  · split at h
    · split at h
      · split at h
        · split at h
          · exact (finishYMD_some h).2.1
          · exact Option.noConfusion h
        · exact Option.noConfusion h
      · exact Option.noConfusion h
    · exact Option.noConfusion h
  · exact Option.noConfusion h

theorem strptime_eu_valid {cs : List Char} {d : YMD} (h : strptime_eu cs = some d) :
    validYMD d := by
  unfold strptime_eu at h
  split at h
  · split at h
    · split at h
      · split at h
        · split at h
          · exact (finishYMD_some h).2.1
          · exact Option.noConfusion h
        · exact Option.noConfusion h
      · exact Option.noConfusion h
    · exact Option.noConfusion h
  · exact Option.noConfusion h

theorem strptime_isoslash_valid {cs : List Char} {d : YMD}
    (h : strptime_isoslash cs = some d) : validYMD d := by
  unfold strptime_isoslash at h
  split at h
  · split at h
    · split at h
      · split at h
        · split at h
          · exact (finishYMD_some h).2.1
          · exact Option.noConfusion h
        · exact Option.noConfusion h
      · exact Option.noConfusion h
    · exact Option.noConfusion h
  · exact Option.noConfusion h

theorem tryFormats_valid {cs : List Char} {d : YMD} (h : tryFormats cs = some d) :
    validYMD d := by
  unfold tryFormats at h
  split at h
  · rename_i d1 h1
    exact Option.some.inj h ▸ strptime_iso_valid h1
  · split at h
    · rename_i d1 h1
      exact Option.some.inj h ▸ strptime_us_valid h1
    · split at h
      · rename_i d1 h1
        exact Option.some.inj h ▸ strptime_eu_valid h1
      · exact strptime_isoslash_valid h

theorem tryFormats_of_iso {cs : List Char} {d : YMD} (h : strptime_iso cs = some d) :
    tryFormats cs = some d := by
  unfold tryFormats
  rw [h]

theorem strptime_iso_len10 {cs : List Char} {d : YMD} (h : strptime_iso cs = some d)
    (hlen : cs.length = 10) : cs = renderChars d := by
  unfold strptime_iso at h
  cases hy : parseYear cs with
  | none => rw [hy] at h; exact Option.noConfusion h
  | some p =>
    obtain ⟨y, r1⟩ := p
    simp only [hy] at h
    cases hs1 : parseSep '-' r1 with
    | none => rw [hs1] at h; exact Option.noConfusion h
    | some r2 =>
      simp only [hs1] at h
      cases hm : parseNum2or1 12 r2 with
      | none => rw [hm] at h; exact Option.noConfusion h
      | some q =>
        obtain ⟨m, r3⟩ := q
        simp only [hm] at h
        cases hs2 : parseSep '-' r3 with
        | none => rw [hs2] at h; exact Option.noConfusion h
        | some r4 =>
          simp only [hs2] at h
          cases hdd : parseNum2or1 31 r4 with
          | none => rw [hdd] at h; exact Option.noConfusion h
          | some w =>
            obtain ⟨dd, r5⟩ := w
            simp only [hdd] at h
            obtain ⟨hr5, hvalid, hd⟩ := finishYMD_some h
            subst hd
            subst hr5
            obtain ⟨d1, d2, d3, d4, hcs, hy', hb1, hb2, hb3, hb4⟩ := parseYear_decomp hy
            have hr1 := parseSep_decomp hs1
            have hr3 := parseSep_decomp hs2
            rcases parseNum2or1_decomp hm with
              ⟨a1, a2, hr2, hm', ha1, ha2, hm1, hm12⟩ | ⟨hr2, hm1, hm9⟩ <;>
              rcases parseNum2or1_decomp hdd with
                ⟨b1, b2, hr4, hd', hc1, hc2, hd1, hd31⟩ | ⟨hr4, hd1, hd9⟩ <;>
              subst hr4 <;> subst hr3 <;> subst hr2 <;> subst hr1 <;> subst hcs
            · have e1 : y / 1000 = d1 := by omega
              have e2 : y / 100 % 10 = d2 := by omega
              have e3 : y / 10 % 10 = d3 := by omega
              have e4 : y % 10 = d4 := by omega
              have e5 : m / 10 = a1 := by omega
              have e6 : m % 10 = a2 := by omega
              have e7 : dd / 10 = b1 := by omega
              have e8 : dd % 10 = b2 := by omega
              show _ = digitChar (y / 1000) :: digitChar (y / 100 % 10) ::
                digitChar (y / 10 % 10) :: digitChar (y % 10) :: '-' ::
                digitChar (m / 10) :: digitChar (m % 10) :: '-' ::
                digitChar (dd / 10) :: digitChar (dd % 10) :: []
              rw [e1, e2, e3, e4, e5, e6, e7, e8]
            · simp at hlen
            · simp at hlen
            · simp at hlen

theorem parse_date_render {d : YMD} (h : validYMD d) :
    parse_date (some (renderISO d)) = some (renderISO d) := by
  have hs : pyStrip (String.toList (renderISO d)) = renderChars d :=
    pyStrip_id (renderChars_not_ws d)
  have h0 : (renderChars d).length = 10 := renderChars_length d
  have h1 : ¬ (renderChars d = []) := by
    intro he
    rw [he] at h0
    exact absurd h0 (by decide)
  have h2 : isNullToken (renderChars d) = false := isNullToken_false_of_length h0
  have h3 : tryFormats (renderChars d) = some d :=
    tryFormats_of_iso (strptime_iso_render h)
  simp only [parse_date, hs, h2, h3, if_neg h1, Bool.false_eq_true, if_false]

theorem parse_date_shape {v j : String} (h : parse_date (some v) = some j) :
    ∃ d, validYMD d ∧ j = renderISO d := by
  have h' : (if pyStrip (String.toList v) = [] then none
      else if isNullToken (pyStrip (String.toList v)) = true then none
      else
        match tryFormats (pyStrip (String.toList v)) with
        | some d => some (renderISO d)
        | none =>
          if 10 ≤ (pyStrip (String.toList v)).length then
            match strptime_iso ((pyStrip (String.toList v)).take 10) with
            | some _ => some (⟨(pyStrip (String.toList v)).take 10⟩ : String)
            | none => none
          else none) = some j := h
  generalize hg : pyStrip (String.toList v) = l at h'
  split at h'
  · exact Option.noConfusion h'
  · split at h'
    · exact Option.noConfusion h'
    · split at h'
      · rename_i d1 heq
        exact ⟨d1, tryFormats_valid heq, (Option.some.inj h').symm⟩
      · rename_i heq0
        split at h'
        · rename_i hlen
          split at h'
          · rename_i d2 heq2
            have htl : (l.take 10).length = 10 := by
              rw [List.length_take]
              omega
            have hrc : l.take 10 = renderChars d2 := strptime_iso_len10 heq2 htl
            refine ⟨d2, strptime_iso_valid heq2, ?_⟩
            rw [← Option.some.inj h', hrc]
            rfl
          · exact Option.noConfusion h'
        · exact Option.noConfusion h'

theorem parse_date_idem {v : Option String} {j : String} (h : parse_date v = some j) :
    parse_date (some j) = some j := by
  cases v with
  | none => exact Option.noConfusion h
  | some s =>
    obtain ⟨d, hd, rfl⟩ := parse_date_shape h
    exact parse_date_render hd

/-! ## The full repair run -/

theorem attrProj_fields {a b : Employee} (h : attrProj a = attrProj b) :
    a.employee_id = b.employee_id ∧ a.department = b.department ∧
      a.job_level = b.job_level ∧ a.region = b.region ∧ a.location = b.location := by
  unfold attrProj at h
  exact ⟨congrArg (·.1) h, congrArg (·.2.1) h, congrArg (·.2.2.1) h,
    congrArg (·.2.2.2.1) h, congrArg (·.2.2.2.2) h⟩

theorem getById_map {f : Employee → Employee}
    (hid : ∀ e, (f e).employee_id = e.employee_id) (s : Store) (i : Int) :
    getById (s.map f) i = (getById s i).map f := by
  induction s with
  | nil => rfl
  | cons a s ih =>
    simp only [List.map_cons, getById, List.find?_cons] at ih ⊢
    by_cases haj : a.employee_id = i
    · rw [show ((f a).employee_id == i) = true by rw [hid]; simpa using haj,
        show (a.employee_id == i) = true by simpa using haj]
      rfl
    · rw [show ((f a).employee_id == i) = false by rw [hid]; simpa using haj,
        show (a.employee_id == i) = false by simpa using haj]
      exact ih

theorem mgrFix_some {s : Store} {e : Employee} {m jl : Int}
    (hjl : e.job_level = some jl) (h : mgrFix s e = some m) :
    m ∈ _candidate_ids_for_level s e.department (jl + 1) e.region e.location := by
  unfold mgrFix at h
  cases hm0 : e.manager_id with
  | none =>
    rw [hjl, hm0] at h
    exact Option.noConfusion h
  | some m0 =>
    rw [hjl, hm0] at h
    have h2 : (if m0 ∈ _candidate_ids_for_level s e.department (jl + 1) e.region
        e.location then some m0 else none) = some m := h
    by_cases hmem : m0 ∈ _candidate_ids_for_level s e.department (jl + 1) e.region
        e.location
    · rw [if_pos hmem] at h2
      exact (Option.some.inj h2) ▸ hmem
    · rw [if_neg hmem] at h2
      exact Option.noConfusion h2

theorem supFix_some {s : Store} {e : Employee} {m jl : Int}
    (hjl : e.job_level = some jl) (h : supFix s e = some m) :
    m ∈ _candidate_ids_for_level s e.department (jl + 2) e.region e.location := by
  unfold supFix at h
  cases hm0 : e.supervisor_id with
  | none =>
    rw [hjl, hm0] at h
    exact Option.noConfusion h
  | some m0 =>
    rw [hjl, hm0] at h
    have h2 : (if m0 ∈ _candidate_ids_for_level s e.department (jl + 2) e.region
        e.location then some m0 else none) = some m := h
    by_cases hmem : m0 ∈ _candidate_ids_for_level s e.department (jl + 2) e.region
        e.location
    · rw [if_pos hmem] at h2
      exact (Option.some.inj h2) ▸ hmem
    · rw [if_neg hmem] at h2
      exact Option.noConfusion h2

theorem nodup_of_attr {s t : Store} (h : s.map attrProj = t.map attrProj)
    (hnd : (t.map (·.employee_id)).Nodup) : (s.map (·.employee_id)).Nodup := by
  rw [map_ids_of_map_attrProj h]
  exact hnd

/-- After a full successful run (over a store whose levels are all non-NULL),
every surviving or newly assigned link is a member of the candidate set at the
correct offset, computed over the final store. -/
theorem main_links {today : YMD} {s s' : Store}
    (hnd : (s.map (·.employee_id)).Nodup)
    (hlv : ∀ e ∈ s, e.job_level.isSome)
    (h : main today s = some s') :
    s'.map attrProj = s.map attrProj ∧
    ∀ e' ∈ s',
      (∀ m, e'.manager_id = some m → ∃ jl, e'.job_level = some jl ∧
        m ∈ _candidate_ids_for_level s' e'.department (jl + 1) e'.region e'.location) ∧
      (∀ m, e'.supervisor_id = some m → ∃ jl, e'.job_level = some jl ∧
        m ∈ _candidate_ids_for_level s' e'.department (jl + 2) e'.region e'.location) ∧
      (e'.manager_id = none → ∃ jl, e'.job_level = some jl ∧ (jl = 5 ∨
        _candidate_ids_for_level s' e'.department (jl + 1) e'.region e'.location = [])) ∧
      (e'.supervisor_id = none → ∃ jl, e'.job_level = some jl ∧ (jl = 4 ∨
        _candidate_ids_for_level s' e'.department (jl + 2) e'.region e'.location = [])) ∧
      parse_date e'.joining_date = e'.joining_date ∧
      parse_date e'.exit_date = e'.exit_date ∧
      compute_tenure e'.joining_date e'.exit_date today = e'.tenure_years ∧
      e'.tenure_years.isSome := by
  unfold main at h
  cases hv : validate_manager_id_supervisor_id s with
  | none =>
    rw [hv] at h
    exact Option.noConfusion h
  | some s1 =>
    rw [hv] at h
    have h1 : (match update_employees_tenure today s1 with
        | none => none
        | some s2 => some (update_employees_supervisor_id
            (update_employees_manager_id s2))) = some s' := h
    cases ht : update_employees_tenure today s1 with
    | none =>
      rw [ht] at h1
      exact Option.noConfusion h1
    | some s2 =>
      rw [ht] at h1
      have hs' : update_employees_supervisor_id (update_employees_manager_id s2) = s' :=
        Option.some.inj h1
      rcases validate_master hnd hv with ⟨a1, -, v3⟩
      have hnd1 : (s1.map (·.employee_id)).Nodup := nodup_of_attr a1 hnd
      rcases tenure_eq hnd1 ht with ⟨hmap2, htsuc⟩
      have a2 : s2.map attrProj = s1.map attrProj := by
        rw [hmap2, List.map_map]
        exact List.map_congr_left fun e _ => rfl
      have hnd2 : (s2.map (·.employee_id)).Nodup := nodup_of_attr (a2.trans a1) hnd
      rcases managerFill_master hnd2 with ⟨a3, m2, m3⟩
      have hnd3 : ((update_employees_manager_id s2).map (·.employee_id)).Nodup :=
        nodup_of_attr (a3.trans (a2.trans a1)) hnd
      rcases supervisorFill_master hnd3 with ⟨a4, p2, p3⟩
      rw [hs'] at a4 p2 p3
      have a' : s'.map attrProj = s.map attrProj :=
        a4.trans (a3.trans (a2.trans a1))
      have hnd' : (s'.map (·.employee_id)).Nodup := nodup_of_attr a' hnd
      refine ⟨a', ?_⟩
      intro e' he'
      have hg' : getById s' e'.employee_id = some e' := getById_of_mem hnd' he'
      -- the corresponding records at each intermediate stage
      rcases getById_exists_of_attr a4 hg' with ⟨e3, hg3, hae3⟩
      have he3 : e3 ∈ update_employees_manager_id s2 := getById_mem hg3
      rcases getById_exists_of_attr a3 hg3 with ⟨e2, hg2, hae2⟩
      have he2 : e2 ∈ s2 := getById_mem hg2
      have hg2n : getById (s1.map (normRecord today)) e'.employee_id = some e2 := by
        rw [← hmap2]
        exact hg2
      rw [@getById_map (normRecord today) (fun _ => rfl) s1 e'.employee_id] at hg2n
      have he1 : ∃ e1, getById s1 e'.employee_id = some e1 ∧ e2 = normRecord today e1 := by
        cases hg1 : getById s1 e'.employee_id with
        | none => rw [hg1] at hg2n; cases hg2n
        | some e1 =>
          rw [hg1] at hg2n
          exact ⟨e1, rfl, (Option.some.inj hg2n).symm⟩
      rcases he1 with ⟨e1, hg1, he21⟩
      rcases getById_exists_of_attr a1 hg1 with ⟨e0, hg0, hae0⟩
      have he0 : e0 ∈ s := getById_mem hg0
      have hide0 : e0.employee_id = e'.employee_id := getById_eq_some_id hg0
      have hv3 := v3 e0 he0
      have hg1x : getById s1 e0.employee_id = some e1 := by
        rw [hide0]
        exact hg1
      rw [hg1x] at hv3
      have he10 : e1 = { e0 with manager_id := mgrFix s e0, supervisor_id := supFix s e0 } :=
        Option.some.inj hv3
      -- job level of the chain
      rcases Option.isSome_iff_exists.1 (hlv e0 he0) with ⟨jl, hjl0⟩
      have hajl2 : e2.job_level = some jl := by
        rw [he21, he10]
        exact hjl0
      have haid2 : e2.employee_id = e'.employee_id := getById_eq_some_id hg2
      have haid3 : e3.employee_id = e'.employee_id := getById_eq_some_id hg3
      have hajl3 : e3.job_level = some jl := by
        rcases attrProj_fields hae2 with ⟨-, -, hjl2, -, -⟩
        rw [← hjl2, hajl2]
      have hae12 : attrProj e1 = attrProj e2 := by
        rw [he21]
        rfl
      have hae : attrProj e0 = attrProj e' :=
        hae0.trans (hae12.trans (hae2.trans hae3))
      rcases attrProj_fields hae with ⟨-, hdep0, hjl0', hreg0, hloc0⟩
      rcases attrProj_fields (hae2.trans hae3) with ⟨-, hdep2, hjl2', hreg2, hloc2⟩
      rcases attrProj_fields hae3 with ⟨-, hdep3, hjl3', hreg3, hloc3⟩
      have hjle' : e'.job_level = some jl := by
        rw [← hjl0', hjl0]
      -- relation between e3 and e' created by the supervisor fill
      have hsup_rel : e' = e3 ∨ (∃ mS, e' = { e3 with supervisor_id := some mS } ∧
          mS ∈ _candidate_ids_for_level (update_employees_manager_id s2) e3.department
            (e3.job_level.getD 0 + 2) e3.region e3.location) := by
        have hgx : getById s' e3.employee_id = some e' := by
          rw [haid3]
          exact hg'
        cases h3s : e3.supervisor_id with
        | some v =>
          have hp := p2 e3 he3 (by rw [h3s]; rfl)
          rw [hgx] at hp
          exact Or.inl (Option.some.inj hp)
        | none =>
          rcases p3 e3 he3 h3s with ⟨hkeep, -⟩ | ⟨mS, hset, -, hmemS⟩
          · rw [hgx] at hkeep
            exact Or.inl (Option.some.inj hkeep)
          · rw [hgx] at hset
            exact Or.inr ⟨mS, Option.some.inj hset, hmemS⟩
      -- relation between e2 and e3 created by the manager fill
      have hmgr_rel : e3 = e2 ∨ (∃ mM, e3 = { e2 with manager_id := some mM } ∧
          mM ∈ _candidate_ids_for_level s2 e2.department (e2.job_level.getD 0 + 1)
            e2.region e2.location) := by
        have hgy : getById (update_employees_manager_id s2) e2.employee_id = some e3 := by
          rw [haid2]
          exact hg3
        cases h2m : e2.manager_id with
        | some v =>
          have hp := m2 e2 he2 (by rw [h2m]; rfl)
          rw [hgy] at hp
          exact Or.inl (Option.some.inj hp)
        | none =>
          rcases m3 e2 he2 h2m with ⟨hkeep, -⟩ | ⟨mM, hset, -, hmemM⟩
          · rw [hgy] at hkeep
            exact Or.inl (Option.some.inj hkeep)
          · rw [hgy] at hset
            exact Or.inr ⟨mM, Option.some.inj hset, hmemM⟩
      have hmgr_e : e'.manager_id = e3.manager_id := by
        rcases hsup_rel with rfl | ⟨mS, hset, -⟩
        · rfl
        · rw [hset]
      have hsup_e23 : e3.supervisor_id = e2.supervisor_id := by
        rcases hmgr_rel with rfl | ⟨mM, hset, -⟩
        · rfl
        · rw [hset]
      -- the dates and tenure of the final record are those the tenure pass wrote
      have he1m : e1 ∈ s1 := getById_mem hg1
      have hts := htsuc e1 he1m
      rcases Option.isSome_iff_exists.1 hts with ⟨t, htv⟩
      have hjsome : ∃ jv, parse_date e1.joining_date = some jv := by
        cases hj : parse_date e1.joining_date with
        | none =>
          rw [hj] at htv
          exact Option.noConfusion htv
        | some jv => exact ⟨jv, rfl⟩
      rcases hjsome with ⟨jv, hjv⟩
      have hj32 : e3.joining_date = e2.joining_date := by
        rcases hmgr_rel with rfl | ⟨mM, hset, -⟩
        · rfl
        · rw [hset]
      have hx32 : e3.exit_date = e2.exit_date := by
        rcases hmgr_rel with rfl | ⟨mM, hset, -⟩
        · rfl
        · rw [hset]
      have hty32 : e3.tenure_years = e2.tenure_years := by
        rcases hmgr_rel with rfl | ⟨mM, hset, -⟩
        · rfl
        · rw [hset]
      have hj'3 : e'.joining_date = e3.joining_date := by
        rcases hsup_rel with rfl | ⟨mS, hset, -⟩
        · rfl
        · rw [hset]
      have hx'3 : e'.exit_date = e3.exit_date := by
        rcases hsup_rel with rfl | ⟨mS, hset, -⟩
        · rfl
        · rw [hset]
      have hty'3 : e'.tenure_years = e3.tenure_years := by
        rcases hsup_rel with rfl | ⟨mS, hset, -⟩
        · rfl
        · rw [hset]
      have hjoin' : e'.joining_date = some jv := by
        rw [hj'3, hj32, he21, ← hjv]
        rfl
      have hexit' : e'.exit_date = parse_date e1.exit_date := by
        rw [hx'3, hx32, he21]
        rfl
      have hten' : e'.tenure_years =
          compute_tenure (parse_date e1.joining_date) (parse_date e1.exit_date) today := by
        rw [hty'3, hty32, he21]
        rfl
      refine ⟨?_, ?_, ?_, ?_, ?_, ?_, ?_, ?_⟩
      · -- manager link
        intro m hm
        have hm3 : e3.manager_id = some m := by rw [← hmgr_e, hm]
        rcases hmgr_rel with heq32 | ⟨mM, hset, hmemM⟩
        · -- survived from the validate pass
          have hm2 : e2.manager_id = some m := by rw [← heq32, hm3]
          have hm1 : e1.manager_id = some m := by
            have h21 : e2.manager_id = e1.manager_id := by
              rw [he21]
              rfl
            rw [← h21, hm2]
          have hmf : mgrFix s e0 = some m := by
            have h10 : e1.manager_id = mgrFix s e0 := by
              rw [he10]
            rw [← h10, hm1]
          have hmem := mgrFix_some hjl0 hmf
          refine ⟨jl, hjle', ?_⟩
          rw [candidate_ids_congr a', ← hdep0, ← hreg0, ← hloc0]
          exact hmem
        · -- freshly assigned by the manager fill
          have hmM : mM = m := by
            have : e3.manager_id = some mM := by rw [hset]
            rw [hm3] at this
            exact (Option.some.inj this).symm
          subst hmM
          rw [hajl2] at hmemM
          refine ⟨jl, hjle', ?_⟩
          have hc23 : _candidate_ids_for_level s2 e2.department ((some jl).getD 0 + 1)
              e2.region e2.location =
              _candidate_ids_for_level s' e2.department ((some jl).getD 0 + 1)
                e2.region e2.location :=
            candidate_ids_congr (a4.trans a3).symm _ _ _ _
          rw [hc23] at hmemM
          rw [← hdep2, ← hreg2, ← hloc2]
          exact hmemM
      · -- supervisor link
        intro m hm
        rcases hsup_rel with heq3 | ⟨mS, hset, hmemS⟩
        · have hm3 : e3.supervisor_id = some m := by rw [← heq3, hm]
          have hm2 : e2.supervisor_id = some m := by rw [← hsup_e23, hm3]
          have hm1 : e1.supervisor_id = some m := by
            have h21 : e2.supervisor_id = e1.supervisor_id := by
              rw [he21]
              rfl
            rw [← h21, hm2]
          have hsf : supFix s e0 = some m := by
            have h10 : e1.supervisor_id = supFix s e0 := by
              rw [he10]
            rw [← h10, hm1]
          have hmem := supFix_some hjl0 hsf
          refine ⟨jl, hjle', ?_⟩
          rw [candidate_ids_congr a', ← hdep0, ← hreg0, ← hloc0]
          exact hmem
        · have hmS : mS = m := by
            have : e'.supervisor_id = some mS := by rw [hset]
            rw [hm] at this
            exact (Option.some.inj this).symm
          subst hmS
          rw [hajl3] at hmemS
          refine ⟨jl, hjle', ?_⟩
          have hc3' : _candidate_ids_for_level (update_employees_manager_id s2)
              e3.department ((some jl).getD 0 + 2) e3.region e3.location =
              _candidate_ids_for_level s' e3.department ((some jl).getD 0 + 2)
                e3.region e3.location :=
            candidate_ids_congr a4.symm _ _ _ _
          rw [hc3'] at hmemS
          rw [← hdep3, ← hreg3, ← hloc3]
          exact hmemS
      · -- no manager: the fill either skipped (level 5) or had no candidate
        intro hm
        refine ⟨jl, hjle', ?_⟩
        have hm3 : e3.manager_id = none := by rw [← hmgr_e, hm]
        have he32 : e3 = e2 := by
          rcases hmgr_rel with heq32 | ⟨mM, hset, -⟩
          · exact heq32
          · rw [hset] at hm3
            exact Option.noConfusion hm3
        have hm2 : e2.manager_id = none := by rw [← he32, hm3]
        rcases m3 e2 he2 hm2 with ⟨-, hskip | hnilc⟩ | ⟨mM, hset, -, -⟩
        · left
          rw [hajl2] at hskip
          exact hskip
        · right
          rw [hajl2] at hnilc
          have hc : _candidate_ids_for_level s2 e2.department (jl + 1) e2.region
              e2.location = [] := hnilc
          rw [candidate_ids_congr (a4.trans a3), ← hdep2, ← hreg2, ← hloc2]
          exact hc
        · exfalso
          have hgy : getById (update_employees_manager_id s2) e2.employee_id =
              some e3 := by
            rw [haid2]
            exact hg3
          rw [hgy] at hset
          have he3eq : e3 = { e2 with manager_id := some mM } := Option.some.inj hset
          rw [he3eq] at hm3
          exact Option.noConfusion hm3
      · -- no supervisor: the fill either skipped (level 4) or had no candidate
        intro hm
        refine ⟨jl, hjle', ?_⟩
        have he'3 : e' = e3 := by
          rcases hsup_rel with heq3 | ⟨mS, hset, -⟩
          · exact heq3
          · rw [hset] at hm
            exact Option.noConfusion hm
        have hm3 : e3.supervisor_id = none := by rw [← he'3, hm]
        rcases p3 e3 he3 hm3 with ⟨-, hskip | hnilc⟩ | ⟨mS, hset, -, -⟩
        · left
          rw [hajl3] at hskip
          exact hskip
        · right
          rw [hajl3] at hnilc
          have hc : _candidate_ids_for_level (update_employees_manager_id s2)
              e3.department (jl + 2) e3.region e3.location = [] := hnilc
          rw [candidate_ids_congr a4, ← hdep3, ← hreg3, ← hloc3]
          exact hc
        · exfalso
          have hgx : getById s' e3.employee_id = some e' := by
            rw [haid3]
            exact hg'
          rw [hgx] at hset
          have he'eq : e' = { e3 with supervisor_id := some mS } := Option.some.inj hset
          rw [he'eq] at hm
          exact Option.noConfusion hm
      · -- the normalized joining date is a fixed point of normalization
        rw [hjoin']
        exact parse_date_idem hjv
      · -- the normalized exit date is a fixed point of normalization
        rw [hexit']
        cases hx : parse_date e1.exit_date with
        | none => rfl
        | some xv => exact parse_date_idem hx
      · -- the tenure formula recomputes the stored tenure
        rw [hjoin', hexit', hten', hjv]
      · -- a tenure value is present
        rw [hten', htv]
        rfl

/-! ## Claim C1 -/

/-- C1: after a full successful repair run over a store whose levels are all
integers in 1..5, every non-null `manager_id` references a stored employee one
level above its owner, and every non-null `supervisor_id` one two levels
above. -/
theorem repair_level_invariant (today : YMD) (s s' : Store)
    (hnd : (s.map (·.employee_id)).Nodup)
    (hlv : ∀ e ∈ s, ∃ l, e.job_level = some l ∧ 1 ≤ l ∧ l ≤ 5)
    (h : main today s = some s') :
    ∀ e ∈ s',
      (∀ m, e.manager_id = some m → ∃ w ∈ s', w.employee_id = m ∧
        ∃ l, e.job_level = some l ∧ w.job_level = some (l + 1)) ∧
      (∀ m, e.supervisor_id = some m → ∃ w ∈ s', w.employee_id = m ∧
        ∃ l, e.job_level = some l ∧ w.job_level = some (l + 2)) := by
  have hlv' : ∀ e ∈ s, e.job_level.isSome := by
    intro e he
    rcases hlv e he with ⟨l, hl, -, -⟩
    rw [hl]
    rfl
  rcases main_links hnd hlv' h with ⟨-, hlinks⟩
  intro e he
  rcases hlinks e he with ⟨hm, hs, -⟩
  constructor
  · intro m hmm
    rcases hm m hmm with ⟨jl, hjl, hmem⟩
    rcases mem_candidate_ids hmem with ⟨w, hw, hwid, hwlv, -, -⟩
    exact ⟨w, hw, hwid, jl, hjl, hwlv⟩
  · intro m hmm
    rcases hs m hmm with ⟨jl, hjl, hmem⟩
    rcases mem_candidate_ids hmem with ⟨w, hw, hwid, hwlv, -, -⟩
    exact ⟨w, hw, hwid, jl, hjl, hwlv⟩

/-! ## Claim C9 -/

/-- C9: after a full successful repair run over a store whose levels are all
in 1..5, no level-5 record holds a manager and no level-4 record holds a
supervisor; moreover the fill loop bodies skip level-5 (manager) and level-4
(supervisor) rows unconditionally. -/
theorem policy_exclusion_after_repair (today : YMD) (s s' : Store)
    (hnd : (s.map (·.employee_id)).Nodup)
    (hlv : ∀ e ∈ s, ∃ l, e.job_level = some l ∧ 1 ≤ l ∧ l ≤ 5)
    (h : main today s = some s') :
    (∀ e ∈ s', (e.job_level = some 5 → e.manager_id = none) ∧
      (e.job_level = some 4 → e.supervisor_id = none)) ∧
    (∀ st row, row.job_level.getD 0 = 5 → managerStep st row = st) ∧
    (∀ st row, row.job_level.getD 0 = 4 → supervisorStep st row = st) := by
  have hlv' : ∀ e ∈ s, e.job_level.isSome := by
    intro e he
    rcases hlv e he with ⟨l, hl, -, -⟩
    rw [hl]
    rfl
  rcases main_links hnd hlv' h with ⟨hattr, hlinks⟩
  have hlv5 : ∀ e ∈ s', ∀ l, e.job_level = some l → l ≤ 5 := by
    intro e he l hl
    rcases attr_witness hattr he with ⟨w, hw, hwa⟩
    rcases attrProj_fields hwa with ⟨-, -, hwl, -, -⟩
    rcases hlv w hw with ⟨l0, hl0, -, hl0b⟩
    rw [hwl, hl] at hl0
    rw [Option.some.inj hl0]
    exact hl0b
  have hnil : ∀ d r l, _candidate_ids_for_level s' d 6 r l = [] := by
    intro d r l
    apply candidate_ids_nil
    intro e he
    cases hjl : e.job_level with
    | none => rfl
    | some lv =>
      have hb : lv ≤ 5 := hlv5 e he lv hjl
      show optEq (some lv) (some 6) = false
      simp only [optEq, beq_eq_false_iff_ne, ne_eq]
      omega
  refine ⟨?_, ?_, ?_⟩
  · intro e he
    constructor
    · intro h5
      cases hm : e.manager_id with
      | none => rfl
      | some m =>
        rcases (hlinks e he).1 m hm with ⟨jl, hjl, hmem⟩
        rw [h5] at hjl
        have hjl5 : jl = 5 := (Option.some.inj hjl).symm
        subst hjl5
        rw [show (5 : Int) + 1 = 6 by norm_num, hnil] at hmem
        cases hmem
    · intro h4
      cases hm : e.supervisor_id with
      | none => rfl
      | some m =>
        rcases (hlinks e he).2.1 m hm with ⟨jl, hjl, hmem⟩
        rw [h4] at hjl
        have hjl4 : jl = 4 := (Option.some.inj hjl).symm
        subst hjl4
        rw [show (4 : Int) + 2 = 6 by norm_num, hnil] at hmem
        cases hmem
  · intro st row h5
    unfold managerStep
    rw [if_pos h5]
  · intro st row h4
    unfold supervisorStep
    rw [if_pos h4]

/-! ## Concrete evaluation of a full run (witness store) -/

theorem optMapM_cons_eq {α β : Type _} {f : α → Option β} {a : α} {l : List α}
    {b : β} {bs : List β} (ha : f a = some b) (hl : optMapM f l = some bs) :
    optMapM f (a :: l) = some (b :: bs) := by
  unfold optMapM
  rw [ha, hl]

/-- Tenure preparation for any record joining 2020-01-01 with no exit date,
today frozen to 2024-01-01. -/
theorem tenureUpdateFor_2020 (i : Int) (d : Option String) (jl : Option Int)
    (loc reg : Option String) (mi si : Option Int) (ty : Option ℚ) :
    tenureUpdateFor ⟨2024, 1, 1⟩
      ⟨i, d, jl, loc, reg, mi, si, some "2020-01-01", none, ty⟩ =
      some (i, some "2020-01-01", none, 4) := by
  show (match compute_tenure (parse_date (some "2020-01-01")) (parse_date none)
          ⟨2024, 1, 1⟩ with
        | some t => some ((i, parse_date (some "2020-01-01"), parse_date none, t) :
            TenureUpdate)
        | none => none) = some (i, some "2020-01-01", none, 4)
  rw [show parse_date (some "2020-01-01") = some "2020-01-01" from by decide,
    show parse_date none = (none : Option String) from rfl, compute_tenure_2020_2024]

theorem main_eval {t : YMD} {s s1 s2 : Store}
    (h1 : validate_manager_id_supervisor_id s = some s1)
    (h2 : update_employees_tenure t s1 = some s2) :
    main t s =
      some (update_employees_supervisor_id (update_employees_manager_id s2)) := by
  unfold main
  rw [h1]
  have h3 : (match update_employees_tenure t s1 with
      | none => none
      | some s2 => some (update_employees_supervisor_id
          (update_employees_manager_id s2))) =
      some (update_employees_supervisor_id (update_employees_manager_id s2)) := by
    rw [h2]
  exact h3

/-- The witness store: four Engineering employees at levels 1, 2, 4, 5, no
links, all joining 2020-01-01. -/
def wStore : Store :=
  [⟨1, some "Eng", some 1, none, none, none, none, some "2020-01-01", none, none⟩,
   ⟨2, some "Eng", some 2, none, none, none, none, some "2020-01-01", none, none⟩,
   ⟨4, some "Eng", some 4, none, none, none, none, some "2020-01-01", none, none⟩,
   ⟨5, some "Eng", some 5, none, none, none, none, some "2020-01-01", none, none⟩]

/-- The witness store after the tenure pass. -/
def wStoreT : Store :=
  [⟨1, some "Eng", some 1, none, none, none, none, some "2020-01-01", none, some 4⟩,
   ⟨2, some "Eng", some 2, none, none, none, none, some "2020-01-01", none, some 4⟩,
   ⟨4, some "Eng", some 4, none, none, none, none, some "2020-01-01", none, some 4⟩,
   ⟨5, some "Eng", some 5, none, none, none, none, some "2020-01-01", none, some 4⟩]

/-- The witness store after the full run: 1 reports to 2, 2 is supervised by
4, 4 reports to 5; the level-5 record keeps no manager and the level-4 record
no supervisor. -/
def wFinal : Store :=
  [⟨1, some "Eng", some 1, none, none, some 2, none, some "2020-01-01", none, some 4⟩,
   ⟨2, some "Eng", some 2, none, none, none, some 4, some "2020-01-01", none, some 4⟩,
   ⟨4, some "Eng", some 4, none, none, some 5, none, some "2020-01-01", none, some 4⟩,
   ⟨5, some "Eng", some 5, none, none, none, none, some "2020-01-01", none, some 4⟩]

theorem wStore_tenure :
    update_employees_tenure ⟨2024, 1, 1⟩ wStore = some wStoreT := by
  have hmm : optMapM (tenureUpdateFor ⟨2024, 1, 1⟩) wStore =
      some [(1, some "2020-01-01", none, 4), (2, some "2020-01-01", none, 4),
        (4, some "2020-01-01", none, 4), (5, some "2020-01-01", none, 4)] :=
    optMapM_cons_eq (tenureUpdateFor_2020 1 (some "Eng") (some 1) none none none none none)
      (optMapM_cons_eq (tenureUpdateFor_2020 2 (some "Eng") (some 2) none none none none
          none)
        (optMapM_cons_eq (tenureUpdateFor_2020 4 (some "Eng") (some 4) none none none none
            none)
          (optMapM_cons_eq (tenureUpdateFor_2020 5 (some "Eng") (some 5) none none none
              none none) rfl)))
  show (match optMapM (tenureUpdateFor ⟨2024, 1, 1⟩) wStore with
        | some updates => some (updates.foldl applyTenureUpdate wStore)
        | none => none) = some wStoreT
  rw [hmm]
  rfl

theorem wStore_main : main ⟨2024, 1, 1⟩ wStore = some wFinal := by
  have h := main_eval
    (by decide : validate_manager_id_supervisor_id wStore = some wStore) wStore_tenure
  rw [h]
  rfl

/-- C1 witness: in the repaired witness store, record 1 (level 1) points to
manager 2, who sits at level 2. -/
theorem repair_level_invariant_witness :
    ∃ w ∈ wFinal, w.employee_id = 2 ∧
      ∃ l, (⟨1, some "Eng", some 1, none, none, some 2, none, some "2020-01-01", none,
        some 4⟩ : Employee).job_level = some l ∧ w.job_level = some (l + 1) :=
  ((repair_level_invariant ⟨2024, 1, 1⟩ wStore wFinal (by decide)
      (by
        intro e he
        rcases List.mem_cons.1 he with rfl | he
        · exact ⟨1, rfl, by decide, by decide⟩
        rcases List.mem_cons.1 he with rfl | he
        · exact ⟨2, rfl, by decide, by decide⟩
        rcases List.mem_cons.1 he with rfl | he
        · exact ⟨4, rfl, by decide, by decide⟩
        rcases List.mem_cons.1 he with rfl | he
        · exact ⟨5, rfl, by decide, by decide⟩
        · cases he)
      wStore_main)
    ⟨1, some "Eng", some 1, none, none, some 2, none, some "2020-01-01", none, some 4⟩
    (by decide)).1 2 rfl

/-- C9 witness: in the repaired witness store, the level-5 record holds no
manager and the level-4 record holds no supervisor. -/
theorem policy_exclusion_after_repair_witness :
    (⟨5, some "Eng", some 5, none, none, none, none, some "2020-01-01", none,
      some 4⟩ : Employee).manager_id = none ∧
    (⟨4, some "Eng", some 4, none, none, some 5, none, some "2020-01-01", none,
      some 4⟩ : Employee).supervisor_id = none := by
  have h := (policy_exclusion_after_repair ⟨2024, 1, 1⟩ wStore wFinal (by decide)
    (by
      intro e he
      rcases List.mem_cons.1 he with rfl | he
      · exact ⟨1, rfl, by decide, by decide⟩
      rcases List.mem_cons.1 he with rfl | he
      · exact ⟨2, rfl, by decide, by decide⟩
      rcases List.mem_cons.1 he with rfl | he
      · exact ⟨4, rfl, by decide, by decide⟩
      rcases List.mem_cons.1 he with rfl | he
      · exact ⟨5, rfl, by decide, by decide⟩
      · cases he)
    wStore_main).1
  exact ⟨(h _ (by decide)).1 rfl, (h _ (by decide)).2 rfl⟩

/-! ## Fixpoint lemmas: a repaired store passes every stage unchanged -/

theorem optFoldl_fix {σ α : Type _} {f : σ → α → Option σ} {st : σ} {l : List α}
    (h : ∀ a ∈ l, f st a = some st) : optFoldl f st l = some st := by
  induction l with
  | nil => rfl
  | cons a as ih =>
    unfold optFoldl
    rw [h a (List.mem_cons_self a as)]
    exact ih fun b hb => h b (List.mem_cons_of_mem a hb)

theorem foldl_fix {σ α : Type _} {f : σ → α → σ} {st : σ} {l : List α}
    (h : ∀ a ∈ l, f st a = st) : l.foldl f st = st := by
  induction l with
  | nil => rfl
  | cons a as ih =>
    rw [List.foldl_cons, h a (List.mem_cons_self a as)]
    exact ih fun b hb => h b (List.mem_cons_of_mem a hb)

/-- A store all of whose links are members of their own freshly computed
candidate sets passes the validate pass unchanged. -/
theorem validate_noop {s' : Store}
    (hlv : ∀ e ∈ s', e.job_level.isSome)
    (hmgr : ∀ e ∈ s', ∀ m, e.manager_id = some m → ∃ jl, e.job_level = some jl ∧
      m ∈ _candidate_ids_for_level s' e.department (jl + 1) e.region e.location)
    (hsup : ∀ e ∈ s', ∀ m, e.supervisor_id = some m → ∃ jl, e.job_level = some jl ∧
      m ∈ _candidate_ids_for_level s' e.department (jl + 2) e.region e.location) :
    validate_manager_id_supervisor_id s' = some s' := by
  unfold validate_manager_id_supervisor_id
  apply optFoldl_fix
  intro row hrow
  have hrs : row ∈ s' := List.mem_of_mem_filter hrow
  rcases Option.isSome_iff_exists.1 (hlv row hrs) with ⟨jl, hjl⟩
  have hvm : validateMgr s' row jl = s' := by
    have hb : validateMgr s' row jl = match row.manager_id with
        | none => s'
        | some m =>
          if _is_valid_leader_id s' row.department jl row.region row.location (some m) 1
          then s' else clearManager row.employee_id s' := rfl
    cases hmr : row.manager_id with
    | none => rw [hb, hmr]
    | some m =>
      rcases hmgr row hrs m hmr with ⟨jl2, hjl2, hmem⟩
      rw [hjl] at hjl2
      have hj : jl2 = jl := (Option.some.inj hjl2).symm
      subst hj
      have hvalid : _is_valid_leader_id s' row.department jl2 row.region row.location
          (some m) 1 = true := decide_eq_true hmem
      rw [hb, hmr]
      show (if _is_valid_leader_id s' row.department jl2 row.region row.location
          (some m) 1 = true then s' else clearManager row.employee_id s') = s'
      rw [if_pos hvalid]
  have hvs : validateSup s' row jl = s' := by
    have hb : validateSup s' row jl = match row.supervisor_id with
        | none => s'
        | some m =>
          if _is_valid_leader_id s' row.department jl row.region row.location (some m) 2
          then s' else clearSupervisor row.employee_id s' := rfl
    cases hmr : row.supervisor_id with
    | none => rw [hb, hmr]
    | some m =>
      rcases hsup row hrs m hmr with ⟨jl2, hjl2, hmem⟩
      rw [hjl] at hjl2
      have hj : jl2 = jl := (Option.some.inj hjl2).symm
      subst hj
      have hvalid : _is_valid_leader_id s' row.department jl2 row.region row.location
          (some m) 2 = true := decide_eq_true hmem
      rw [hb, hmr]
      show (if _is_valid_leader_id s' row.department jl2 row.region row.location
          (some m) 2 = true then s' else clearSupervisor row.employee_id s') = s'
      rw [if_pos hvalid]
  have hstep : validateStep s' row = some (validateSup (validateMgr s' row jl) row jl) := by
    unfold validateStep
    rw [hjl]
  rw [hstep, hvm, hvs]

theorem optMapM_isSome_of_all {α β : Type _} {f : α → Option β} {l : List α}
    (h : ∀ a ∈ l, (f a).isSome) : (optMapM f l).isSome := by
  induction l with
  | nil => rfl
  | cons a as ih =>
    rcases Option.isSome_iff_exists.1 (h a (List.mem_cons_self a as)) with ⟨b, hb⟩
    rcases Option.isSome_iff_exists.1
      (ih fun x hx => h x (List.mem_cons_of_mem a hx)) with ⟨bs, hbs⟩
    unfold optMapM
    rw [hb, hbs]
    rfl

/-- A store whose dates are already normalized and whose tenure matches the
formula passes the tenure pass unchanged. -/
theorem tenure_noop {today : YMD} {s' : Store}
    (hnd : (s'.map (·.employee_id)).Nodup)
    (hfacts : ∀ e ∈ s', parse_date e.joining_date = e.joining_date ∧
      parse_date e.exit_date = e.exit_date ∧
      compute_tenure e.joining_date e.exit_date today = e.tenure_years ∧
      e.tenure_years.isSome) :
    update_employees_tenure today s' = some s' := by
  have hsome : ∀ e ∈ s', (tenureUpdateFor today e).isSome := by
    intro e he
    rcases hfacts e he with ⟨hj, hx, hc, hts⟩
    rcases Option.isSome_iff_exists.1 hts with ⟨t, htv⟩
    show (match compute_tenure (parse_date e.joining_date) (parse_date e.exit_date)
          today with
      | some t => some ((e.employee_id, parse_date e.joining_date,
          parse_date e.exit_date, t) : TenureUpdate)
      | none => none).isSome
    rw [hj, hx, hc, htv]
    rfl
  rcases Option.isSome_iff_exists.1 (optMapM_isSome_of_all hsome) with ⟨us, hus⟩
  have hpass : update_employees_tenure today s' =
      some (us.foldl applyTenureUpdate s') := by
    unfold update_employees_tenure
    rw [hus]
  have hnorm : ∀ e ∈ s', normRecord today e = e := by
    intro e he
    rcases hfacts e he with ⟨hj, hx, hc, -⟩
    unfold normRecord
    rw [hj, hx, hc]
  rcases tenure_eq hnd hpass with ⟨heq, -⟩
  rw [hpass]
  have hmapid : s'.map (normRecord today) = s' := by
    have h2 : s'.map (normRecord today) = s'.map id := List.map_congr_left hnorm
    rw [h2, List.map_id]
  rw [heq, hmapid]

/-- A store whose manager-less records are all level 5 or candidate-less
passes the manager-fill pass unchanged. -/
theorem managerFill_noop {s' : Store}
    (hfacts : ∀ e ∈ s', e.manager_id = none → ∃ jl, e.job_level = some jl ∧ (jl = 5 ∨
      _candidate_ids_for_level s' e.department (jl + 1) e.region e.location = [])) :
    update_employees_manager_id s' = s' := by
  unfold update_employees_manager_id
  apply foldl_fix
  intro row hrow
  have hrs : row ∈ s' := List.mem_of_mem_filter hrow
  have hp := List.of_mem_filter hrow
  have hrm : row.manager_id = none := of_decide_eq_true hp
  rcases hfacts row hrs hrm with ⟨jl, hjl, hcase⟩
  by_cases h5 : row.job_level.getD 0 = 5
  · unfold managerStep
    rw [if_pos h5]
  · unfold managerStep
    rw [if_neg h5]
    rcases hcase with h5' | hnil
    · exfalso
      apply h5
      rw [hjl]
      exact h5'
    · have hfl : _find_leader s' row.department (row.job_level.getD 0) row.region
          row.location 1 (fun e => e.manager_id) = none := by
        rw [find_leader_none_iff, hjl]
        show _candidate_ids_for_level s' row.department (jl + 1) row.region
          row.location = []
        exact hnil
      rw [hfl]

/-- A store whose supervisor-less records are all level 4 or candidate-less
passes the supervisor-fill pass unchanged. -/
theorem supervisorFill_noop {s' : Store}
    (hfacts : ∀ e ∈ s', e.supervisor_id = none → ∃ jl, e.job_level = some jl ∧ (jl = 4 ∨
      _candidate_ids_for_level s' e.department (jl + 2) e.region e.location = [])) :
    update_employees_supervisor_id s' = s' := by
  unfold update_employees_supervisor_id
  apply foldl_fix
  intro row hrow
  have hrs : row ∈ s' := List.mem_of_mem_filter hrow
  have hp := List.of_mem_filter hrow
  have hrm : row.supervisor_id = none := of_decide_eq_true hp
  rcases hfacts row hrs hrm with ⟨jl, hjl, hcase⟩
  by_cases h4 : row.job_level.getD 0 = 4
  · unfold supervisorStep
    rw [if_pos h4]
  · unfold supervisorStep
    rw [if_neg h4]
    rcases hcase with h4' | hnil
    · exfalso
      apply h4
      rw [hjl]
      exact h4'
    · have hfl : _find_leader s' row.department (row.job_level.getD 0) row.region
          row.location 2 (fun e => e.supervisor_id) = none := by
        rw [find_leader_none_iff, hjl]
        show _candidate_ids_for_level s' row.department (jl + 2) row.region
          row.location = []
        exact hnil
      rw [hfl]

/-! ## Claim C2 -/

/-- C2 (amended): over a store with unique ids whose `job_level` values are
all non-NULL, a second full run (with the current date frozen) returns the
first run's store literally unchanged — in particular every record's
`manager_id`, `supervisor_id` and `tenure_years` after the second run equal
their values after the first run, and the second validate pass clears
nothing. -/
theorem repair_idempotent (today : YMD) (s s1 : Store)
    (hnd : (s.map (·.employee_id)).Nodup)
    (hlv : ∀ e ∈ s, e.job_level.isSome)
    (h : main today s = some s1) :
    main today s1 = some s1 := by
  rcases main_links hnd hlv h with ⟨hattr, hfacts⟩
  have hnd1 : (s1.map (·.employee_id)).Nodup := nodup_of_attr hattr hnd
  have hlv1 : ∀ e ∈ s1, e.job_level.isSome := by
    intro e he
    rcases attr_witness hattr he with ⟨w, hw, hwa⟩
    rcases attrProj_fields hwa with ⟨-, -, hwl, -, -⟩
    rw [← hwl]
    exact hlv w hw
  have hval : validate_manager_id_supervisor_id s1 = some s1 :=
    validate_noop hlv1 (fun e he => (hfacts e he).1) (fun e he => (hfacts e he).2.1)
  have hten : update_employees_tenure today s1 = some s1 :=
    tenure_noop hnd1 (fun e he => (hfacts e he).2.2.2.2)
  have hmgr : update_employees_manager_id s1 = s1 :=
    managerFill_noop (fun e he => (hfacts e he).2.2.1)
  have hsup : update_employees_supervisor_id s1 = s1 :=
    supervisorFill_noop (fun e he => (hfacts e he).2.2.2.1)
  have h0 := main_eval hval hten
  rw [h0, hmgr, hsup]

/-- A store whose first record has NULL `job_level`: the first full run
assigns it a manager (NULL level counts as 0, so the fill searches target
level 1), and the second run's validate pass then raises on `int(None)`. -/
def c2Store : Store :=
  [⟨1, some "Eng", none, none, none, none, none, some "2020-01-01", none, none⟩,
   ⟨2, some "Eng", some 1, none, none, none, none, some "2020-01-01", none, none⟩]

/-- `c2Store` after the tenure pass of the first run. -/
def c2StoreT : Store :=
  [⟨1, some "Eng", none, none, none, none, none, some "2020-01-01", none, some 4⟩,
   ⟨2, some "Eng", some 1, none, none, none, none, some "2020-01-01", none, some 4⟩]

/-- `c2Store` after the first full run: the NULL-level record now reports to
employee 2. -/
def c2Store' : Store :=
  [⟨1, some "Eng", none, none, none, some 2, none, some "2020-01-01", none, some 4⟩,
   ⟨2, some "Eng", some 1, none, none, none, none, some "2020-01-01", none, some 4⟩]

theorem c2Store_tenure :
    update_employees_tenure ⟨2024, 1, 1⟩ c2Store = some c2StoreT := by
  have hmm : optMapM (tenureUpdateFor ⟨2024, 1, 1⟩) c2Store =
      some [(1, some "2020-01-01", none, 4), (2, some "2020-01-01", none, 4)] :=
    optMapM_cons_eq (tenureUpdateFor_2020 1 (some "Eng") none none none none none none)
      (optMapM_cons_eq (tenureUpdateFor_2020 2 (some "Eng") (some 1) none none none none
          none) rfl)
  show (match optMapM (tenureUpdateFor ⟨2024, 1, 1⟩) c2Store with
        | some updates => some (updates.foldl applyTenureUpdate c2Store)
        | none => none) = some c2StoreT
  rw [hmm]
  rfl

theorem c2Store_run1 : main ⟨2024, 1, 1⟩ c2Store = some c2Store' := by
  have h := main_eval
    (by decide : validate_manager_id_supervisor_id c2Store = some c2Store) c2Store_tenure
  rw [h]
  rfl

theorem c2Store_run2 : main ⟨2024, 1, 1⟩ c2Store' = none := by
  have hv : validate_manager_id_supervisor_id c2Store' = none := by decide
  unfold main
  rw [hv]

/-- C2 (counterexample to the unconditional claim): on a store containing a
NULL `job_level`, the first full run succeeds — handing the NULL-level record
a manager — but running the four passes a second time does not reproduce the
first run's values: its validate pass raises on `int(None)` and the run
aborts. -/
theorem repair_not_idempotent :
    main ⟨2024, 1, 1⟩ c2Store = some c2Store' ∧
    main ⟨2024, 1, 1⟩ c2Store' = none :=
  ⟨c2Store_run1, c2Store_run2⟩

/-- C2 witness: the repaired four-employee witness store passes a second full
run unchanged. -/
theorem repair_idempotent_witness :
    main ⟨2024, 1, 1⟩ wStore = some wFinal ∧
    main ⟨2024, 1, 1⟩ wFinal = some wFinal :=
  ⟨wStore_main, repair_idempotent ⟨2024, 1, 1⟩ wStore wFinal (by decide) (by decide)
    wStore_main⟩

end HrisRepair
